import Mathlib

/-!
# Verification of the Wolfenstein-3D-style game core (src/main.js)

Shallow embedding of the enemy-AI / navigation / collision subsystem of
`src/main.js`, together with proofs of the spec's testable properties.

Conventions of the embedding:
* JS numbers are modelled as `ℚ` (all arithmetic in the relevant code is
  exact decimal/integer arithmetic), grid indices as `ℤ`.
* The flat array `levelWalls[gz * MAP_SIZE + gx]` is modelled as a function
  `levelWalls : ℤ → ℤ → ℤ` applied as `levelWalls gx gz`; the code always
  bounds-checks indices before reading, so only in-bounds cells matter.
* `Math.random()` results are passed in as explicit `ℚ` parameters.
* Side effects that leave the simulation (sound cues, sprite/texture
  updates) are dropped; DOM notifications are modelled as returned values.
* JS `while` loops are given explicit fuel, chosen large enough that the
  fuel is never exhausted where the original loop terminates.
-/

namespace Wolf3D

/-- Constant `MAP_SIZE = 64`. -/
def MAP_SIZE : Int := 64

/-- Constant `CELL = 2` world units per cell. -/
def CELL : ℚ := 2

/-- Constant `WALL_H = CELL`. -/
def WALL_H : ℚ := 2

/-- Constant `DOOR_PASSABLE_OPEN = 0.8`. -/
def DOOR_PASSABLE_OPEN : ℚ := 0.8

/-- Constant `STORY_H = 2`. -/
def STORY_H : ℚ := 2

/-- Constant `FLOOR_1_Y = 2`. -/
def FLOOR_1_Y : ℚ := 2

/-- Constant `MAX_STEP_UP = 0.55`. -/
def MAX_STEP_UP : ℚ := 0.55

/-- Door kind `door.userData.doorType` (`'normal' | 'gold' | 'silver' | 'elevator'`). -/
inductive DoorType where
  | normal | gold | silver | elevator
  deriving DecidableEq, Repr

/-- The mutable state of one door (`door.userData`).  The JS field `open`
is a Lean keyword, so it is named `openFlag` here. -/
structure Door where
  gridX : Int
  gridY : Int
  doorType : DoorType
  openAmount : ℚ
  opening : Bool
  closing : Bool
  openFlag : Bool
  deriving DecidableEq, Repr

/-- A static prop (`levelStatics` entry): world position and `blocking` flag. -/
structure StaticObj where
  x : ℚ
  z : ℚ
  blocking : Bool
  deriving DecidableEq, Repr

/-- The per-level world state read by the collision / pathfinding /
sound-propagation queries: the wall grid, the door list, the statics list,
the multi-story arrays (absent on single-story levels, hence `Option`),
and the player camera position (read by `isBlocked` on multi-story levels). -/
structure Env where
  levelWalls : Int → Int → Int
  levelDoors : List Door
  levelStatics : List StaticObj
  levelIsMultiStory : Bool
  levelFloorH : Option (Int → Int → ℚ)
  levelCeilingH : Option (Int → Int → ℚ)
  levelUpperWalls : Option (Int → Int → Int)
  cameraX : ℚ
  cameraZ : ℚ

/-- In-bounds test shared by every grid query
(`gx < 0 || gx >= MAP_SIZE || gz < 0 || gz >= MAP_SIZE`, negated). -/
def inBounds (gx gz : Int) : Bool :=
  decide (0 ≤ gx) && decide (gx < MAP_SIZE) && decide (0 ≤ gz) && decide (gz < MAP_SIZE)

/-- Function `getDoorAt(gx, gz)`: `null` when out of bounds or the cell is not a
door cell (`levelWalls[...] !== -1`), otherwise the first matching door. -/
def getDoorAt (env : Env) (gx gz : Int) : Option Door :=
  if !inBounds gx gz then none
  else if env.levelWalls gx gz ≠ -1 then none
  else env.levelDoors.find? (fun d => d.gridX == gx && d.gridY == gz)

/-- Function `getFloorHeight(wx, wz)`. -/
def getFloorHeight (env : Env) (wx wz : ℚ) : ℚ :=
  match env.levelFloorH with
  | none => 0
  | some fh =>
    if !env.levelIsMultiStory then 0
    else
      let gx := ⌊wx / CELL⌋
      let gz := ⌊wz / CELL⌋
      if !inBounds gx gz then 0 else fh gx gz

/-- Predicate `isOnSecondFloor(floorY)`: `floorY >= FLOOR_1_Y - 0.3`. -/
def isOnSecondFloor (floorY : ℚ) : Bool :=
  decide (floorY ≥ FLOOR_1_Y - 0.3)

/-- The static-prop circular footprint test shared by both blocking queries:
`(wx - s.x)² + (wz - s.z)² < 0.36` for some blocking static. -/
def staticBlocks (env : Env) (wx wz : ℚ) : Bool :=
  env.levelStatics.any (fun s =>
    s.blocking && decide ((wx - s.x) * (wx - s.x) + (wz - s.z) * (wz - s.z) < 0.36))

/-- Function `isBlockedMultiStory(wx, wz, entityFloorY)`. -/
def isBlockedMultiStory (env : Env) (wx wz entityFloorY : ℚ) : Bool :=
  let gx := ⌊wx / CELL⌋
  let gz := ⌊wz / CELL⌋
  if !inBounds gx gz then true
  else
    let w := env.levelWalls gx gz
    if w > 0 then
      -- ground-floor wall: short walls do not block an entity on the 2nd story
      if env.levelIsMultiStory && isOnSecondFloor entityFloorY then
        let cellCeil := match env.levelCeilingH with
          | some ch => ch gx gz
          | none => WALL_H
        if cellCeil ≤ FLOOR_1_Y then false else true
      else true
    else if w = -1 then
      match env.levelDoors.find? (fun d => d.gridX == gx && d.gridY == gz) with
      | some door => if door.openAmount ≥ DOOR_PASSABLE_OPEN then false else true
      | none => true
    else
      -- upper walls only block entities on the second story
      if env.levelIsMultiStory && isOnSecondFloor entityFloorY &&
          (match env.levelUpperWalls with
           | some uw => decide (uw gx gz > 0)
           | none => false) then true
      else if env.levelIsMultiStory &&
          (match env.levelFloorH with
           | some fh => decide (fh gx gz - entityFloorY > MAX_STEP_UP)
           | none => false) then true
      else staticBlocks env wx wz

/-- Function `isBlocked(wx, wz)`: on multi-story levels delegates to
`isBlockedMultiStory` at the *player's* current floor height; otherwise
the plain single-story test. -/
def isBlocked (env : Env) (wx wz : ℚ) : Bool :=
  if env.levelIsMultiStory then
    isBlockedMultiStory env wx wz (getFloorHeight env env.cameraX env.cameraZ)
  else
    let gx := ⌊wx / CELL⌋
    let gz := ⌊wz / CELL⌋
    if !inBounds gx gz then true
    else
      let w := env.levelWalls gx gz
      if w > 0 then true
      else if w = -1 then
        match env.levelDoors.find? (fun d => d.gridX == gx && d.gridY == gz) with
        | some door => if door.openAmount ≥ DOOR_PASSABLE_OPEN then false else true
        | none => true
      else staticBlocks env wx wz

/-!
## Sound propagation (`alertEnemiesBySound`)
-/

/-- The AI state enum `AI` (`{STAND:0, PATROL:1, ALERT:2, CHASE:3, ATTACK:4,
PAIN:5, DYING:6, DEAD:7, DOOR_WAIT:8, DODGE:9, INVESTIGATE:10}`). -/
inductive AIState where
  | STAND | PATROL | ALERT | CHASE | ATTACK | PAIN | DYING | DEAD
  | DOOR_WAIT | DODGE | INVESTIGATE
  deriving DecidableEq, Repr

/-- Phase values of `attackPhase`; `idle` is the source's `'none'`. -/
inductive AtkPhase where
  | aim | fire | idle
  deriving DecidableEq, Repr

/-- Enemy type name (`e.userData.enemyType`). -/
inductive EKind where
  | guard | officer | ss | dog | mutant | boss
  deriving DecidableEq, Repr

/-- The per-type immutable stat block (`ENEMY_TYPES[...]`, restricted to the
fields the verified code paths read). `dmg0`/`dmg1` are the `dmg` range. -/
structure EnemyType where
  dmg0 : ℚ
  dmg1 : ℚ
  score : Nat
  shootDist : ℚ
  melee : Bool
  silent : Bool
  noPain : Bool
  dodges : Bool
  rushes : Bool
  canOpenDoors : Bool
  deriving DecidableEq, Repr

/-- The mutable per-enemy state (`e.userData` plus the sprite position),
restricted to the fields the verified code paths read or write. -/
structure Enemy where
  posX : ℚ
  posZ : ℚ
  alive : Bool
  health : ℚ
  aiState : AIState
  alerted : Bool
  enemyType : EKind
  typeDef : EnemyType
  investigateX : ℚ
  investigateZ : ℚ
  investigateTimer : ℚ
  currentFloorY : ℚ
  attackPhase : AtkPhase
  attackTimer : ℚ
  attackDidFire : Bool
  dodgeTimer : ℚ
  dodgeDir : Int
  deathFrame : Nat
  deathFrameTimer : ℚ
  deriving DecidableEq, Repr

/-- The 4-connected neighbour offsets `[[1,0],[-1,0],[0,1],[0,-1]]`. -/
def dirs : List (Int × Int) := [(1, 0), (-1, 0), (0, 1), (0, -1)]

/-- The admission test a neighbour cell must pass before the sound BFS
enqueues it: in bounds, not a solid wall (`w > 0` blocks), and for a door
cell (`w === -1`) with a door entity, `openAmount ≥ 0.3`
(`if (door && door.userData.openAmount < 0.3) continue`). -/
def soundAdmissible (env : Env) (nx nz : Int) : Bool :=
  inBounds nx nz &&
  decide (env.levelWalls nx nz ≤ 0) &&
  (if env.levelWalls nx nz = -1 then
     match getDoorAt env nx nz with
     | some door => decide (door.openAmount ≥ 0.3)
     | none => true
   else true)

/-- One neighbour visit of the BFS inner `for` loop: mark `nk` visited
(even when the cell is then rejected, exactly as the source does), and
enqueue the neighbour when it passes `soundAdmissible`. `acc` is the pair
(visited set, queue). -/
def floodStep (env : Env) (x z dist : Int)
    (acc : List Int × List (Int × Int × Int)) (d : Int × Int) :
    List Int × List (Int × Int × Int) :=
  let nx := x + d.1
  let nz := z + d.2
  let nk := nx * MAP_SIZE + nz
  if nk ∈ acc.1 then acc
  else
    let vis := nk :: acc.1
    if soundAdmissible env nx nz then (vis, acc.2 ++ [(nx, nz, dist + 1)])
    else (vis, acc.2)

/-- The BFS `while (queue.length > 0)` loop of `alertEnemiesBySound`,
with explicit fuel (the real loop terminates because every enqueue fresh-marks
a visited key and there are finitely many keys; 5000 exceeds that count). -/
def floodLoop (env : Env) (maxFlood : Int) :
    Nat → List Int → List (Int × Int × Int) → List Int → List Int
  | 0, _, _, alerted => alerted
  | _ + 1, _, [], alerted => alerted
  | fuel + 1, visited, (x, z, dist) :: rest, alerted =>
    let alerted' := (x * MAP_SIZE + z) :: alerted
    if dist ≥ maxFlood then floodLoop env maxFlood fuel visited rest alerted'
    else
      let r := dirs.foldl (floodStep env x z dist) (visited, rest)
      floodLoop env maxFlood fuel r.1 r.2 alerted'

/-- The flooded cell-key set of `alertEnemiesBySound`, in grid terms:
start from the source cell with it pre-marked visited. -/
def alertedCellsCore (env : Env) (sgx sgz maxFlood : Int) : List Int :=
  floodLoop env maxFlood 5000 [sgx * MAP_SIZE + sgz] [(sgx, sgz, 0)] []

/-- The flooded cell-key set from a world-space source and radius:
`sgx = ⌊sourceX / CELL⌋`, `sgz = ⌊sourceZ / CELL⌋`,
`maxFlood = ceil(radius / CELL)`. -/
def alertedCells (env : Env) (sourceX sourceZ radius : ℚ) : List Int :=
  alertedCellsCore env ⌊sourceX / CELL⌋ ⌊sourceZ / CELL⌋ ⌈radius / CELL⌉

/-- The per-enemy tail of `alertEnemiesBySound`: skip dead enemies, skip
enemies outside the flooded set, skip cross-floor enemies on multi-story
levels, never downgrade `CHASE/ATTACK/DODGE/PAIN`, and otherwise send the
enemy to `INVESTIGATE` at the sound's origin with timeout `4 + r·3`
(`r` is the `Math.random()` draw). -/
def alertEnemyUpdate (env : Env) (cells : List Int) (sourceX sourceZ r : ℚ)
    (e : Enemy) : Enemy :=
  if !e.alive then e
  else
    let egx := ⌊e.posX / CELL⌋
    let egz := ⌊e.posZ / CELL⌋
    if (egx * MAP_SIZE + egz) ∈ cells then
      if env.levelIsMultiStory &&
          decide (|getFloorHeight env sourceX sourceZ - e.currentFloorY|
            > STORY_H * 0.5) then e
      else if e.aiState = AIState.CHASE ∨ e.aiState = AIState.ATTACK ∨
          e.aiState = AIState.DODGE ∨ e.aiState = AIState.PAIN then e
      else
        { e with alerted := true, aiState := AIState.INVESTIGATE,
                 investigateX := sourceX, investigateZ := sourceZ,
                 investigateTimer := 4 + r * 3 }
    else e

/-- Function `alertEnemiesBySound(sourceX, sourceZ, radius)` acting on the enemy
list; `rs i` is the `Math.random()` draw consumed for the `i`-th enemy. -/
def alertEnemiesBySound (env : Env) (rs : Nat → ℚ) (sourceX sourceZ radius : ℚ)
    (enemies : List Enemy) : List Enemy :=
  let cells := alertedCells env sourceX sourceZ radius
  enemies.enum.map (fun p => alertEnemyUpdate env cells sourceX sourceZ (rs p.1) p.2)

/-- Adjacency of grid cells in the 4-connected sense (one cardinal unit step). -/
def Adj (a b : Int × Int) : Prop :=
  (b.1 - a.1).natAbs + (b.2 - a.2).natAbs = 1

/-- Cells reachable from the sound origin through admissible steps: the
over-approximation of the BFS flood used for the wall-safety proof. -/
inductive SoundReach (env : Env) (sx sz : Int) : Int → Int → Prop where
  | origin : SoundReach env sx sz sx sz
  | step {x z nx nz : Int} : SoundReach env sx sz x z →
      Adj (x, z) (nx, nz) → soundAdmissible env nx nz = true →
      SoundReach env sx sz nx nz

/-- A 4-connected grid path: the cell list `p` leads from `s` (excluded)
to `t` (included as the last element when `p ≠ []`). -/
def GridPath : (Int × Int) → List (Int × Int) → (Int × Int) → Prop
  | s, [], t => s = t
  | s, c :: p, t => Adj s c ∧ GridPath c p t

/-- A concrete single-door world used by several witnesses: a 64×64 grid,
empty except that cell (1,1) is a door cell holding a normal door whose
`openAmount` is 0.5 and whose animation flags are all clear. -/
def envC1 : Env where
  levelWalls := fun gx gz => if gx = 1 ∧ gz = 1 then -1 else 0
  levelDoors := [{ gridX := 1, gridY := 1, doorType := DoorType.normal,
                   openAmount := 0.5, opening := false, closing := false,
                   openFlag := false }]
  levelStatics := []
  levelIsMultiStory := false
  levelFloorH := none
  levelCeilingH := none
  levelUpperWalls := none
  cameraX := 3
  cameraZ := 3

/-- The trivial empty single-story world (no walls, no doors). -/
def envC3 : Env where
  levelWalls := fun _ _ => 0
  levelDoors := []
  levelStatics := []
  levelIsMultiStory := false
  levelFloorH := none
  levelCeilingH := none
  levelUpperWalls := none
  cameraX := 0
  cameraZ := 0

/-- A world whose column of cells `gx = 3` is solid wall and which is
otherwise empty: the wall column separates the halves of the grid. -/
def envC2 : Env where
  levelWalls := fun gx _ => if gx = 3 then 1 else 0
  levelDoors := []
  levelStatics := []
  levelIsMultiStory := false
  levelFloorH := none
  levelCeilingH := none
  levelUpperWalls := none
  cameraX := 0
  cameraZ := 0

/-- A concrete guard stat block (`ENEMY_TYPES.guard`, the fields kept in the
embedding). -/
def guardType : EnemyType where
  dmg0 := 5
  dmg1 := 10
  score := 100
  shootDist := 12
  melee := false
  silent := false
  noPain := false
  dodges := false
  rushes := false
  canOpenDoors := true

/-- A concrete idle living guard at world position (3,3) (grid cell (1,1)). -/
def idleGuard : Enemy where
  posX := 3
  posZ := 3
  alive := true
  health := 25
  aiState := AIState.STAND
  alerted := false
  enemyType := EKind.guard
  typeDef := guardType
  investigateX := 0
  investigateZ := 0
  investigateTimer := 0
  currentFloorY := 0
  attackPhase := AtkPhase.idle
  attackTimer := 0
  attackDidFire := false
  dodgeTimer := 0
  dodgeDir := 1
  deathFrame := 0
  deathFrameTimer := 0

/-- The guard of the separation witness: standing at world (11,11),
grid cell (5,5), on the far side of the wall column of `envC2`. -/
def farGuard : Enemy := { idleGuard with posX := 11, posZ := 11 }

/-- A guard already in `CHASE` (used to witness the no-downgrade rule). -/
def chasingGuard : Enemy := { idleGuard with aiState := AIState.CHASE }

/-!
## Attack cycle (`startEnemyAttack` / ATTACK case / `finishEnemyAttack`)
-/

/-- Function `startEnemyAttack(e)`: enter ATTACK in the `aim` phase with a random
wind-up timer `0.14 + r·0.10` and the did-fire flag cleared. -/
def startEnemyAttack (r : ℚ) (e : Enemy) : Enemy :=
  { e with
     aiState := AIState.ATTACK, attackPhase := AtkPhase.aim,
     attackTimer := 0.14 + r * 0.10, attackDidFire := false }

/-- Function `finishEnemyAttack(e)`: clear the attack phase, timer and did-fire flag,
then go to DODGE (for dodge-capable types, with probability 0.6) or CHASE.
`r1`, `r2`, `r3` are the three `Math.random()` draws. -/
def finishEnemyAttack (r1 r2 r3 : ℚ) (e : Enemy) : Enemy :=
  let e' := { e with
               attackPhase := AtkPhase.idle, attackTimer := 0,
               attackDidFire := false }
  if e.typeDef.dodges && decide (r1 < 0.6) then
    { e' with
       aiState := AIState.DODGE, dodgeTimer := 0.35 + r2 * 0.35,
       dodgeDir := if r3 < (0.5 : ℚ) then 1 else -1 }
  else { e' with aiState := AIState.CHASE }

/-- The `case AI.ATTACK` body of `updateEnemies`: decrement the attack
timer; on aim-phase expiry switch to the fire phase (holding 0.2 s) and —
only if the did-fire flag is still clear — resolve damage
(`enemyFireAtPlayer`, reported as the returned Bool) and set the flag;
on fire-phase expiry call `finishEnemyAttack`. -/
def attackCaseTick (dt r1 r2 r3 : ℚ) (e : Enemy) : Enemy × Bool :=
  let e := { e with attackTimer := e.attackTimer - dt }
  if e.attackPhase = AtkPhase.aim ∧ e.attackTimer ≤ 0 then
    let e := { e with attackPhase := AtkPhase.fire, attackTimer := 0.2 }
    if !e.attackDidFire then ({ e with attackDidFire := true }, true)
    else (e, false)
  else if e.attackPhase = AtkPhase.fire ∧ e.attackTimer ≤ 0 then
    (finishEnemyAttack r1 r2 r3 e, false)
  else (e, false)

/-- Iterate `attackCaseTick` over a tick list (each tick carries its `dt`
and the three random draws a `finishEnemyAttack` on that tick would use),
stopping — as `updateEnemies` does — as soon as the enemy is no longer in
the ATTACK state; returns the final enemy and how many times damage
resolution (`enemyFireAtPlayer`) ran. -/
def attackRun : List (ℚ × ℚ × ℚ × ℚ) → Enemy → Enemy × Nat
  | [], e => (e, 0)
  | (dt, r1, r2, r3) :: rest, e =>
    if e.aiState ≠ AIState.ATTACK then (e, 0)
    else
      let step := attackCaseTick dt r1 r2 r3 e
      let tail := attackRun rest step.1
      (tail.1, (if step.2 then 1 else 0) + tail.2)

/-!
## A* pathfinding (`findPath`)

The path cache (`_pathCache`, cleared every 15 frames) only memoises values
this pure function computed earlier in the frame window, so it is omitted:
every theorem is about the search itself.
-/

/-- Function `isTileBlocked(gx, gz)`: grid-level blocked check for pathfinding —
solid walls (`w > 0`) and out-of-bounds block; doors (`-1`) and empty (`0`)
cells are passable. -/
def isTileBlocked (env : Env) (gx gz : Int) : Bool :=
  if !inBounds gx gz then true
  else if env.levelWalls gx gz > 0 then true
  else false

/-- The per-cell A* entry cost
(`doorAt && !doorAt.userData.open ? 3 : 1`). -/
def moveCostAt (env : Env) (gx gz : Int) : Nat :=
  match getDoorAt env gx gz with
  | some d => if !d.openFlag then 3 else 1
  | none => 1

/-- Whether a cell holds a door whose `open` flag is clear — the condition
under which the pathfinder charges the door surcharge. -/
def hasClosedDoor (env : Env) (gx gz : Int) : Bool :=
  match getDoorAt env gx gz with
  | some d => !d.openFlag
  | none => false

/-- An open-list node (`{x, z, f}`). -/
structure PNode where
  x : Int
  z : Int
  f : Nat
  deriving DecidableEq, Repr

/-- Key encoding `key(x, z) = x * MAP_SIZE + z` of the maps. -/
def keyOf (x z : Int) : Int := x * MAP_SIZE + z

/-- Decode a key back to a cell
(`px = Math.floor(k / MAP_SIZE); pz = k % MAP_SIZE`). -/
def cellOfKey (k : Int) : Int × Int := (k / MAP_SIZE, k % MAP_SIZE)

/-- The linear open-list scan (`for i … if (open[i].f < open[bestIdx].f)
bestIdx = i`): index of the first node attaining the minimal f. `i` is the
index of the next node, `b`/`bf` the best index and f seen so far. -/
def minFIdx : List PNode → Nat → Nat → Nat → Nat
  | [], _, b, _ => b
  | n :: rest, i, b, bf =>
    if n.f < bf then minFIdx rest (i + 1) i n.f else minFIdx rest (i + 1) b bf

/-- Splice step `open.splice(bestIdx, 1)[0]`: remove and return the first
minimal-f node. -/
def popMin (l : List PNode) : Option (PNode × List PNode) :=
  match l with
  | [] => none
  | n0 :: rest0 =>
    let idx := minFIdx rest0 1 0 n0.f
    match l.get? idx with
    | some n => some (n, l.eraseIdx idx)
    | none => none

/-- Overwriting insert for the `Map`s (`gScore.set` / `cameFrom.set`). -/
def updA {α : Type} (l : List (Int × α)) (k : Int) (v : α) : List (Int × α) :=
  (k, v) :: l.filter (fun p => !(p.1 == k))

/-- The A* loop state: open list, `gScore`, `cameFrom`. -/
structure AState where
  openL : List PNode
  g : List (Int × Nat)
  cf : List (Int × Int)

/-- The relaxation guard `!gScore.has(nKey) || tentG < gScore.get(nKey)`. -/
def improves (g : List (Int × Nat)) (nKey : Int) (tentG : Nat) : Bool :=
  match g.lookup nKey with
  | none => true
  | some old => decide (tentG < old)

/-- One neighbour relaxation of the A* `for (const [ddx, ddz] of dirs)`
loop body: skip blocked tiles, compute the tentative g through `cur`
(`(gScore.get(curKey) || 0) + moveCost`), and on improvement record the
new g, the parent pointer, and push the node with f = g + Manhattan-h. -/
def expandDir (env : Env) (gx gz : Int) (cur : PNode) (st : AState)
    (d : Int × Int) : AState :=
  let nx := cur.x + d.1
  let nz := cur.z + d.2
  if isTileBlocked env nx nz then st
  else
    let nKey := keyOf nx nz
    let curKey := keyOf cur.x cur.z
    let tentG := (st.g.lookup curKey).getD 0 + moveCostAt env nx nz
    if improves st.g nKey tentG then
      { openL := st.openL ++ [⟨nx, nz, tentG + ((gx - nx).natAbs + (gz - nz).natAbs)⟩],
        g := updA st.g nKey tentG,
        cf := updA st.cf nKey curKey }
    else st

/-- The `while (cameFrom.has(k))` path reconstruction, fuelled; the fuel is
never exhausted because g-scores strictly decrease along parent pointers
(`reconstructPath_sound`). -/
def reconstructPath (cf : List (Int × Int)) : Nat → Int → List (Int × Int)
  | 0, _ => []
  | fuel + 1, k =>
    match cf.lookup k with
    | none => []
    | some k' => reconstructPath cf fuel k' ++ [cellOfKey k]

/-- The A* `while (open.length > 0 && steps++ < maxSteps)` loop. `rfuel`
is the reconstruction fuel (chosen by `findPathGrid` as `3·maxSteps + 1`,
an upper bound on any g-score plus one). -/
def astarLoop (env : Env) (gx gz : Int) (rfuel : Nat) :
    Nat → AState → Option (List (Int × Int))
  | 0, _ => none
  | fuel + 1, st =>
    match popMin st.openL with
    | none => none
    | some (cur, rest) =>
      if cur.x = gx ∧ cur.z = gz then
        let path := reconstructPath st.cf rfuel (keyOf cur.x cur.z)
        if path.length > 0 then some path else none
      else
        astarLoop env gx gz rfuel fuel
          (dirs.foldl (expandDir env gx gz cur) { openL := rest, g := st.g, cf := st.cf })

/-- Body of `findPath` after the world-to-grid conversion: `null` when start and
goal cells coincide, otherwise the bounded A* search from the start node. -/
def findPathGrid (env : Env) (sx sz gx gz : Int) (maxSteps : Nat) :
    Option (List (Int × Int)) :=
  if sx = gx ∧ sz = gz then none
  else
    astarLoop env gx gz (3 * maxSteps + 1) maxSteps
      { openL := [⟨sx, sz, (gx - sx).natAbs + (gz - sz).natAbs⟩],
        g := [(keyOf sx sz, 0)],
        cf := [] }

/-- Function `findPath(startX, startZ, goalX, goalZ, maxSteps = 200)` (the callers
always use the default budget of 200 expansions). -/
def findPath (env : Env) (startX startZ goalX goalZ : ℚ) (maxSteps : Nat) :
    Option (List (Int × Int)) :=
  findPathGrid env ⌊startX / CELL⌋ ⌊startZ / CELL⌋ ⌊goalX / CELL⌋ ⌊goalZ / CELL⌋
    maxSteps

/-- Total A* cost of a returned path: the sum of the per-cell entry costs. -/
def pathCost (env : Env) (p : List (Int × Int)) : Nat :=
  (p.map (fun c => moveCostAt env c.1 c.2)).sum

/-- Number of closed doors a path traverses. -/
def closedDoorCount (env : Env) (p : List (Int × Int)) : Nat :=
  (p.filter (fun c => hasClosedDoor env c.1 c.2)).length

/-- g-scores are bounded by `B` (every recorded value is at most `B`). -/
def GBound (st : AState) (B : Nat) : Prop :=
  ∀ p ∈ st.g, p.2 ≤ B

/-- The loop invariant of the A* search from start cell `(sx, sz)`:
the start keeps g-score 0 and never acquires a parent; every open node is
in bounds with a recorded g-score, and is the start or has a parent; every
`cameFrom` entry leads from an unblocked in-bounds cell to an adjacent
parent of strictly smaller g-score that is itself the start or has a
parent. -/
structure AInv (env : Env) (sx sz : Int) (st : AState) : Prop where
  start_g : st.g.lookup (keyOf sx sz) = some 0
  start_cf : st.cf.lookup (keyOf sx sz) = none
  open_ok : ∀ n ∈ st.openL,
    inBounds n.x n.z = true ∧
    (st.g.lookup (keyOf n.x n.z)).isSome ∧
    ((n.x = sx ∧ n.z = sz) ∨ (st.cf.lookup (keyOf n.x n.z)).isSome)
  cf_ok : ∀ k k', st.cf.lookup k = some k' →
    ∃ x z x' z' gk gk',
      k = keyOf x z ∧ inBounds x z = true ∧ isTileBlocked env x z = false ∧
      k' = keyOf x' z' ∧ inBounds x' z' = true ∧ Adj (x', z') (x, z) ∧
      st.g.lookup k = some gk ∧ st.g.lookup k' = some gk' ∧ gk' < gk ∧
      ((x' = sx ∧ z' = sz) ∨ (st.cf.lookup k').isSome)

/-- The witness world for C6(c): the start cell (1,1) is walled in by its
four neighbours; no route to (5,5) exists. -/
def envC6 : Env where
  levelWalls := fun gx gz =>
    if (gx = 0 ∧ gz = 1) ∨ (gx = 2 ∧ gz = 1) ∨ (gx = 1 ∧ gz = 0) ∨
       (gx = 1 ∧ gz = 2) then 1 else 0
  levelDoors := []
  levelStatics := []
  levelIsMultiStory := false
  levelFloorH := none
  levelCeilingH := none
  levelUpperWalls := none
  cameraX := 0
  cameraZ := 0

/-- The C7 counterexample world: a single solid wall at cell (1,0), no
doors; a search from cell (0,0) to (2,0) must detour around the wall. -/
def envC7 : Env where
  levelWalls := fun gx gz => if gx = 1 ∧ gz = 0 then 1 else 0
  levelDoors := []
  levelStatics := []
  levelIsMultiStory := false
  levelFloorH := none
  levelCeilingH := none
  levelUpperWalls := none
  cameraX := 0
  cameraZ := 0

/-!
## Death sequence (`killEnemy`, the DYING/DEAD ticks, and the shoot filter)
-/

/-- Frame list `guardDeathFrames`: the five tiles (0,5)…(4,5) of the guard sprite
sheet, encoded as `col + 8·row`. -/
def guardDeathFrames : List Nat := [40, 41, 42, 43, 44]

/-- Frame list `dogDeathFrames`: the four dog tiles 32…35. -/
def dogDeathFrames : List Nat := [32, 33, 34, 35]

/-- Function `getEnemyDeathFrames(e)`: dogs use the dog frames, every other type
the guard-sprite frames. -/
def getEnemyDeathFrames (e : Enemy) : List Nat :=
  if e.enemyType = EKind.dog then dogDeathFrames else guardDeathFrames

/-- Function `killEnemy(e)`: mark dead, enter DYING at frame 0 held for 0.12 s,
clear the attack sub-state; returns the updated enemy, the score awarded
(`state.score += td.score`) and whether an ammo pickup is dropped
(every type except the dog). -/
def killEnemy (e : Enemy) : Enemy × Nat × Bool :=
  ({ e with
      alive := false, aiState := AIState.DYING, deathFrame := 0,
      deathFrameTimer := 0.12, attackPhase := AtkPhase.idle,
      attackTimer := 0, attackDidFire := false },
   e.typeDef.score,
   decide (e.enemyType ≠ EKind.dog))

/-- The DYING/DEAD head of the `updateEnemies` per-enemy body: DEAD is
terminal (sprite refresh only); DYING decrements the frame timer and on
expiry advances to the next death frame (held 0.12 s again) or, from the
last frame, to DEAD. Enemies in other states are untouched by this head. -/
def deathTick (dt : ℚ) (e : Enemy) : Enemy :=
  if e.aiState = AIState.DEAD then e
  else if e.aiState = AIState.DYING then
    let t := e.deathFrameTimer - dt
    if t ≤ 0 then
      if e.deathFrame < (getEnemyDeathFrames e).length - 1 then
        { e with deathFrame := e.deathFrame + 1, deathFrameTimer := 0.12 }
      else { e with aiState := AIState.DEAD, deathFrameTimer := t }
    else { e with deathFrameTimer := t }
  else e

/-- Iterated DYING/DEAD ticks. -/
def deathRun (dts : List ℚ) (e : Enemy) : Enemy :=
  dts.foldl (fun e dt => deathTick dt e) e

/-- One enemy of the `shoot()` target scan: skipped while not alive
(`if (!e.userData.alive) continue`), skipped beyond 25 world units or
beyond the best candidate so far (squared distances, equivalently), and
selected when the aim-cone/line-of-sight test `aimOk` (the geometric part
of the scan, universally quantified here) passes. `acc` is
(closestHit, closestDist²); `none` is the initial `Infinity`. -/
def shootScanStep (distSq : Enemy → ℚ) (aimOk : Enemy → Bool)
    (acc : Option Enemy × Option ℚ) (e : Enemy) : Option Enemy × Option ℚ :=
  if !e.alive then acc
  else if (decide (distSq e > 625) ||
      (match acc.2 with
       | some b => decide (distSq e ≥ b)
       | none => false)) then acc
  else if aimOk e then (some e, some (distSq e))
  else acc

/-- The `shoot()` target-selection loop over the enemy list. -/
def shootScan (distSq : Enemy → ℚ) (aimOk : Enemy → Bool)
    (enemies : List Enemy) : Option Enemy :=
  (enemies.foldl (shootScanStep distSq aimOk) (none, none)).1

/-- A guard mid-death-animation (as `killEnemy` leaves it). -/
def dyingGuard : Enemy :=
  { idleGuard with
    aiState := AIState.DYING, alive := false,
    deathFrame := 0, deathFrameTimer := 0.12 }

/-- A finished corpse. -/
def deadGuard : Enemy :=
  { idleGuard with aiState := AIState.DEAD, alive := false, deathFrame := 4 }

/-- A dog (for the type-specific frame count). -/
def dogEnemy : Enemy := { idleGuard with enemyType := EKind.dog }

/-!
## Player door interaction (`tryOpenDoor`)

The caller-side probe point is `check = camera.position + 2·(−sin yaw,
−cos yaw)`; the trigonometry stays outside the rational model, so the
embedding takes the probe point `(checkX, checkZ)` as the argument.
-/

/-- Key possession `state.keys`. -/
structure KeyState where
  gold : Bool
  silver : Bool
  deriving DecidableEq, Repr

/-- Message `'You need a gold key!'`. -/
def goldMsg : String := "You need a gold key!"

/-- Message `'You need a silver key!'`. -/
def silverMsg : String := "You need a silver key!"

/-- The grid-based range check of `tryOpenDoor`
(`Math.abs(dx) < CELL && Math.abs(dz) < CELL` against the door's cell
centre). -/
def doorInRange (checkX checkZ : ℚ) (d : Door) : Bool :=
  decide (|checkX - ((d.gridX : ℚ) * CELL + CELL / 2)| < CELL) &&
  decide (|checkZ - ((d.gridY : ℚ) * CELL + CELL / 2)| < CELL)

/-- The skip test: already fully open, or opening and not closing
(`door.userData.open || (door.userData.opening && !door.userData.closing)`). -/
def doorSkip (d : Door) : Bool :=
  d.openFlag || (d.opening && !d.closing)

/-- The `for (const door of levelDoors)` loop of `tryOpenDoor`: doors in
range are skipped when already open(ing); a locked door without the
matching key makes the whole function return at once with only a
notification (`showNotification`, modelled as the returned message) — in
particular the doors after it are returned untouched; otherwise the door
starts opening (`closing = false; opening = true`) and the loop continues.
Returns the updated door list and the notification, if any. -/
def tryOpenDoorLoop (keys : KeyState) (checkX checkZ : ℚ) :
    List Door → List Door × Option String
  | [] => ([], none)
  | d :: rest =>
    if doorInRange checkX checkZ d then
      if doorSkip d then
        let r := tryOpenDoorLoop keys checkX checkZ rest
        (d :: r.1, r.2)
      else if d.doorType = DoorType.gold ∧ keys.gold = false then
        (d :: rest, some goldMsg)
      else if d.doorType = DoorType.silver ∧ keys.silver = false then
        (d :: rest, some silverMsg)
      else
        let d' := { d with closing := false, opening := true }
        let r := tryOpenDoorLoop keys checkX checkZ rest
        (d' :: r.1, r.2)
    else
      let r := tryOpenDoorLoop keys checkX checkZ rest
      (d :: r.1, r.2)

/-- Function `tryOpenDoor()` on the door list. -/
def tryOpenDoor (keys : KeyState) (checkX checkZ : ℚ) (doors : List Door) :
    List Door × Option String :=
  tryOpenDoorLoop keys checkX checkZ doors

/-- The locked gold door of the C9 witness, at cell (1,1), fully closed. -/
def lockedGoldDoor : Door where
  gridX := 1
  gridY := 1
  doorType := DoorType.gold
  openAmount := 0
  opening := false
  closing := false
  openFlag := false

/-!
## Ranged attack resolution (`enemyAttemptHitPlayer`)

Two of its inputs are geometric quantities computed with trigonometry and
therefore passed in as booleans: `running` is
`playerMoveSpeed >= state.moveSpeed * 1.35` and `facing60` is
`facingDiff < Math.PI / 3` (the player faces the shooter within 60°).
`hitRoll` and `dmgRoll` are the two `Math.floor(Math.random() * 256)`
draws.
-/

/-- Distance `tileDist = dist / CELL`, reduced to two thirds for SS and boss
shooters (`effectiveDist = (effectiveDist * 2) / 3`). -/
def effectiveTileDist (e : Enemy) (dist : ℚ) : ℚ :=
  if e.enemyType = EKind.ss ∨ e.enemyType = EKind.boss then
    (dist / CELL) * 2 / 3
  else dist / CELL

/-- Hit chance `hitChance`: 256 out of 256 (160 when the player is running), lowered
by the effective tile distance times 16 (player facing the shooter within
60°) or times 8, clamped to [8, 255]. -/
def enemyHitChance (e : Enemy) (dist : ℚ) (running facing60 : Bool) : ℚ :=
  max 8 (min 255 ((if running then 160 else 256) -
    effectiveTileDist e dist * (if facing60 then 16 else 8)))

/-- The right-shift applied to the raw damage byte: 2 below 2 effective
tiles, 3 below 4 effective tiles, 4 beyond. -/
def enemyDamageShift (e : Enemy) (dist : ℚ) : Nat :=
  if effectiveTileDist e dist < 2 then 2
  else if effectiveTileDist e dist < 4 then 3
  else 4

/-- The damage computation on a hit: the shifted raw byte scaled by
`typeScale = max(0.4, (dmg[0] + dmg[1]) / 24)`, rounded, and clamped to
`[1, 3 · dmg[1]]`. -/
def enemyDamageRoll (e : Enemy) (dist : ℚ) (dmgRoll : Nat) : ℚ :=
  let typeScale := max 0.4 ((e.typeDef.dmg0 + e.typeDef.dmg1) / 24)
  min (e.typeDef.dmg1 * 3)
    (max 1 ((round (((dmgRoll >>> enemyDamageShift e dist : Nat) : ℚ) *
      typeScale) : ℤ) : ℚ))

/-- Function `enemyAttemptHitPlayer(e, dist)`: miss (`none`) when the hit roll is
at or above the hit chance, otherwise the damage dealt to the player
(`applyPlayerDamageFeedback`). -/
def enemyAttemptHitPlayer (e : Enemy) (dist : ℚ) (running facing60 : Bool)
    (hitRoll dmgRoll : Nat) : Option ℚ :=
  if (hitRoll : ℚ) ≥ enemyHitChance e dist running facing60 then none
  else some (enemyDamageRoll e dist dmgRoll)

/-! ## Theorems -/

/-- The door branch shared by both blocking queries, rewritten as a
threshold test on `openAmount`. -/
theorem door_branch_eq (a : ℚ) :
    (if a ≥ DOOR_PASSABLE_OPEN then false else true)
      = decide (a < DOOR_PASSABLE_OPEN) := by
  by_cases h : a ≥ DOOR_PASSABLE_OPEN
  · simp [h, not_lt.mpr h]
  · simp [h, lt_of_not_ge h]

/-- C1: For every door cell (wall code `-1` with a door entity present),
both point-blocking queries return blocked exactly when the door's
`openAmount` is below the passable threshold `0.8`; the result is a
function of `openAmount` alone — in particular it does not read the
door's `open`/`opening`/`closing` flags, which appear nowhere in the
right-hand side. -/
theorem isBlocked_door_cell_passable_iff (env : Env) (wx wz y : ℚ) (gx gz : Int)
    (d : Door)
    (hgx : ⌊wx / CELL⌋ = gx) (hgz : ⌊wz / CELL⌋ = gz)
    (hin : inBounds gx gz = true)
    (hw : env.levelWalls gx gz = -1)
    (hd : env.levelDoors.find?
      (fun d' => d'.gridX == gx && d'.gridY == gz) = some d) :
    isBlockedMultiStory env wx wz y = decide (d.openAmount < DOOR_PASSABLE_OPEN) ∧
    isBlocked env wx wz = decide (d.openAmount < DOOR_PASSABLE_OPEN) := by
  have hnot : ¬ ((-1 : Int) > 0) := by decide
  have hms : ∀ y' : ℚ, isBlockedMultiStory env wx wz y'
      = decide (d.openAmount < DOOR_PASSABLE_OPEN) := by
    intro y'
    unfold isBlockedMultiStory
    simp only [hgx, hgz, hin, hw, hd, Bool.not_true, Bool.false_eq_true, if_false]
    rw [if_neg hnot]
    simp only [if_true, reduceIte]
    exact door_branch_eq d.openAmount
  refine ⟨hms y, ?_⟩
  unfold isBlocked
  by_cases hm : env.levelIsMultiStory
  · simp only [hm, if_true]
    exact hms _
  · simp only [hm, Bool.false_eq_true, if_false]
    simp only [hgx, hgz, hin, hw, hd, Bool.not_true, Bool.false_eq_true, if_false]
    rw [if_neg hnot]
    simp only [if_true, reduceIte]
    exact door_branch_eq d.openAmount

/-- Witness for C1 at the concrete world `envC1`, world point (3,3)
(grid cell (1,1)), entity floor height 0. -/
theorem isBlocked_door_cell_passable_iff_witness :
    (⌊(3 : ℚ) / CELL⌋ = (1 : Int) ∧ inBounds 1 1 = true ∧
     envC1.levelWalls 1 1 = -1 ∧
     envC1.levelDoors.find? (fun d' => d'.gridX == 1 && d'.gridY == 1)
       = some { gridX := 1, gridY := 1, doorType := DoorType.normal,
                openAmount := 0.5, opening := false, closing := false,
                openFlag := false }) ∧
    (isBlockedMultiStory envC1 3 3 0
       = decide ((0.5 : ℚ) < DOOR_PASSABLE_OPEN) ∧
     isBlocked envC1 3 3
       = decide ((0.5 : ℚ) < DOOR_PASSABLE_OPEN)) :=
  ⟨⟨by norm_num [CELL], rfl, rfl, rfl⟩,
   isBlocked_door_cell_passable_iff envC1 3 3 0 1 1 _
     (by norm_num [CELL]) (by norm_num [CELL]) rfl rfl rfl⟩

theorem foldl_preserve {α β : Type} (P : α → Prop) (f : α → β → α) (l : List β)
    (hstep : ∀ a b, b ∈ l → P a → P (f a b)) :
    ∀ a, P a → P (l.foldl f a) := by
  induction l with
  | nil => intro a ha; exact ha
  | cons b l ih =>
    intro a ha
    exact ih (fun a' b' hb' => hstep a' b' (List.mem_cons_of_mem _ hb'))
      _ (hstep a b (List.mem_cons_self _ _) ha)

theorem adj_of_dir (x z : Int) (d : Int × Int) (hd : d ∈ dirs) :
    Adj (x, z) (x + d.1, z + d.2) := by
  simp only [dirs, List.mem_cons, List.not_mem_nil, or_false] at hd
  rcases hd with rfl | rfl | rfl | rfl <;> simp [Adj]

theorem floodStep_queue_mem (env : Env) (x z dist : Int)
    (acc : List Int × List (Int × Int × Int)) (d : Int × Int)
    (q : Int × Int × Int) (hq : q ∈ (floodStep env x z dist acc d).2) :
    q ∈ acc.2 ∨
    (q = (x + d.1, z + d.2, dist + 1) ∧
     soundAdmissible env (x + d.1) (z + d.2) = true) := by
  unfold floodStep at hq
  by_cases hmem : (x + d.1) * MAP_SIZE + (z + d.2) ∈ acc.1
  · simp only [hmem, if_pos] at hq
    exact Or.inl hq
  · simp only [hmem, if_neg, if_false, not_false_iff] at hq
    by_cases hadm : soundAdmissible env (x + d.1) (z + d.2) = true
    · simp only [hadm, if_pos, if_true] at hq
      rcases List.mem_append.mp hq with h | h
      · exact Or.inl h
      · exact Or.inr ⟨List.mem_singleton.mp h, hadm⟩
    · simp only [hadm, if_neg, if_false] at hq
      exact Or.inl hq

/-- Every cell key the BFS loop ever adds to the alerted set belongs to a
cell reachable from the origin through admissible steps. -/
theorem floodLoop_sound (env : Env) (maxFlood sx sz : Int) :
    ∀ (fuel : Nat) (visited : List Int) (queue : List (Int × Int × Int))
      (alerted : List Int),
    (∀ q ∈ queue, SoundReach env sx sz q.1 q.2.1) →
    (∀ k ∈ alerted, ∃ x z, k = x * MAP_SIZE + z ∧ SoundReach env sx sz x z) →
    ∀ k ∈ floodLoop env maxFlood fuel visited queue alerted,
      ∃ x z, k = x * MAP_SIZE + z ∧ SoundReach env sx sz x z := by
  intro fuel
  induction fuel with
  | zero => intro visited queue alerted _ ha k hk; exact ha k hk
  | succ n ih =>
    intro visited queue alerted hq ha k hk
    match queue with
    | [] => exact ha k hk
    | (x, z, dist) :: rest =>
      have hreach : SoundReach env sx sz x z := hq _ (List.mem_cons_self _ _)
      have hrest : ∀ q ∈ rest, SoundReach env sx sz q.1 q.2.1 :=
        fun q hq' => hq q (List.mem_cons_of_mem _ hq')
      have halerted : ∀ k' ∈ (x * MAP_SIZE + z) :: alerted,
          ∃ x' z', k' = x' * MAP_SIZE + z' ∧ SoundReach env sx sz x' z' := by
        intro k' hk'
        rcases List.mem_cons.mp hk' with rfl | h
        · exact ⟨x, z, rfl, hreach⟩
        · exact ha k' h
      unfold floodLoop at hk
      by_cases hdist : dist ≥ maxFlood
      · simp only [hdist, if_pos, if_true] at hk
        exact ih visited rest _ hrest halerted k hk
      · simp only [hdist, if_neg, if_false, not_false_iff] at hk
        have hfold : ∀ q ∈ (dirs.foldl (floodStep env x z dist) (visited, rest)).2,
            SoundReach env sx sz q.1 q.2.1 := by
          have := foldl_preserve
            (fun acc : List Int × List (Int × Int × Int) =>
              ∀ q ∈ acc.2, SoundReach env sx sz q.1 q.2.1)
            (floodStep env x z dist) dirs
            (fun acc d hd hacc q hq' => by
              rcases floodStep_queue_mem env x z dist acc d q hq' with h | ⟨rfl, hadm⟩
              · exact hacc q h
              · exact SoundReach.step hreach (adj_of_dir x z d hd) hadm)
            (visited, rest) hrest
          exact this
        exact ih _ _ _ hfold halerted k hk

theorem soundReach_elim (env : Env) (sx sz x z : Int)
    (h : SoundReach env sx sz x z) :
    (x = sx ∧ z = sz) ∨ soundAdmissible env x z = true := by
  cases h with
  | origin => exact Or.inl ⟨rfl, rfl⟩
  | step _ _ hadm => exact Or.inr hadm

theorem gridPath_append_single (c : Int × Int) :
    ∀ (s : Int × Int) (p : List (Int × Int)) (t : Int × Int),
    GridPath s p t → Adj t c → GridPath s (p ++ [c]) c := by
  intro s p
  induction p generalizing s with
  | nil =>
    intro t hp hadj
    cases hp
    exact ⟨hadj, rfl⟩
  | cons c' p ih =>
    intro t hp hadj
    exact ⟨hp.1, ih c' t hp.2 hadj⟩

theorem soundReach_path (env : Env) (sx sz x z : Int)
    (h : SoundReach env sx sz x z) :
    ∃ p, GridPath (sx, sz) p (x, z) ∧
      ∀ c ∈ p, soundAdmissible env c.1 c.2 = true := by
  induction h with
  | origin => exact ⟨[], rfl, by intro c hc; cases hc⟩
  | step _ hadj hadm ih =>
    obtain ⟨p, hp, hall⟩ := ih
    refine ⟨p ++ [(_, _)], gridPath_append_single _ _ _ _ hp hadj, ?_⟩
    intro c hc
    rcases List.mem_append.mp hc with h' | h'
    · exact hall c h'
    · rw [List.mem_singleton.mp h']
      exact hadm

theorem inBounds_iff (gx gz : Int) :
    inBounds gx gz = true ↔ 0 ≤ gx ∧ gx < 64 ∧ 0 ≤ gz ∧ gz < 64 := by
  simp [inBounds, MAP_SIZE, and_assoc]

theorem cellKey_inj (x z ax az : Int)
    (hx : inBounds x z = true) (ha : inBounds ax az = true)
    (h : x * MAP_SIZE + z = ax * MAP_SIZE + az) : x = ax ∧ z = az := by
  rw [inBounds_iff] at hx ha
  rw [MAP_SIZE] at h
  omega

theorem soundAdmissible_bounds (env : Env) (x z : Int)
    (h : soundAdmissible env x z = true) :
    inBounds x z = true ∧ env.levelWalls x z ≤ 0 := by
  unfold soundAdmissible at h
  simp only [Bool.and_eq_true, decide_eq_true_eq] at h
  exact ⟨h.1.1, h.1.2⟩

/-- C2: (a) every key the sound flood-fill collects is the origin cell's key
or the key of a cell that passed the admission test — in bounds, wall code
`≤ 0`, and for a door cell with a door present, `openAmount ≥ 0.3`;
(b) consequently, when a family `R` of solid-wall cells separates the
origin cell from an agent's cell (every 4-connected grid path between them
meets `R`), the agent's cell never floods — for any flood bound, i.e. any
radius — and the per-enemy update of `alertEnemiesBySound` leaves the
agent completely unchanged. -/
theorem alertEnemiesBySound_wall_separation
    (env : Env) (sgx sgz maxFlood ax az : Int) (srcX srcZ r : ℚ) (e : Enemy)
    (R : Int × Int → Prop)
    (hRwall : ∀ c, R c → env.levelWalls c.1 c.2 > 0)
    (hsep : ∀ p, GridPath (sgx, sgz) p (ax, az) → ∃ c ∈ p, R c)
    (hobound : inBounds sgx sgz = true)
    (habound : inBounds ax az = true)
    (hax : ⌊e.posX / CELL⌋ = ax) (haz : ⌊e.posZ / CELL⌋ = az) :
    (∀ k ∈ alertedCellsCore env sgx sgz maxFlood,
       k = sgx * MAP_SIZE + sgz ∨
       ∃ x z, k = x * MAP_SIZE + z ∧ soundAdmissible env x z = true) ∧
    (ax * MAP_SIZE + az) ∉ alertedCellsCore env sgx sgz maxFlood ∧
    alertEnemyUpdate env (alertedCellsCore env sgx sgz maxFlood) srcX srcZ r e
      = e := by
  have hsound : ∀ k ∈ alertedCellsCore env sgx sgz maxFlood,
      ∃ x z, k = x * MAP_SIZE + z ∧ SoundReach env sgx sgz x z := by
    intro k hk
    refine floodLoop_sound env maxFlood sgx sgz 5000 _ _ _ ?_ ?_ k hk
    · intro q hq
      rcases List.mem_singleton.mp hq with rfl
      exact SoundReach.origin
    · intro k' hk'
      cases hk'
  have hnot : (ax * MAP_SIZE + az) ∉ alertedCellsCore env sgx sgz maxFlood := by
    intro hk
    obtain ⟨x, z, hkey, hreach⟩ := hsound _ hk
    have hbx : inBounds x z = true := by
      rcases soundReach_elim env sgx sgz x z hreach with ⟨rfl, rfl⟩ | hadm
      · exact hobound
      · exact (soundAdmissible_bounds env x z hadm).1
    obtain ⟨rfl, rfl⟩ := cellKey_inj x z ax az hbx habound hkey.symm
    obtain ⟨p, hp, hadm⟩ := soundReach_path env sgx sgz x z hreach
    obtain ⟨c, hc, hRc⟩ := hsep p hp
    have h1 : env.levelWalls c.1 c.2 ≤ 0 :=
      (soundAdmissible_bounds env c.1 c.2 (hadm c hc)).2
    have h2 : env.levelWalls c.1 c.2 > 0 := hRwall c hRc
    omega
  refine ⟨?_, hnot, ?_⟩
  · intro k hk
    obtain ⟨x, z, hkey, hreach⟩ := hsound _ hk
    rcases soundReach_elim env sgx sgz x z hreach with ⟨rfl, rfl⟩ | hadm
    · exact Or.inl hkey
    · exact Or.inr ⟨x, z, hkey, hadm⟩
  · unfold alertEnemyUpdate
    by_cases halive : e.alive
    · simp only [halive, Bool.not_true, Bool.false_eq_true, if_false, hax, haz,
        hnot, if_neg, not_false_iff]
    · simp [halive]

/-- A 4-connected path whose start is strictly left of column `a` and whose
end is at or right of column `a` contains a cell in column `a`
(discrete intermediate-value property of unit grid steps). -/
theorem gridPath_crosses_column (a : Int) :
    ∀ (s : Int × Int) (p : List (Int × Int)) (t : Int × Int),
    GridPath s p t → s.1 < a → a ≤ t.1 → ∃ c ∈ p, c.1 = a := by
  intro s p
  induction p generalizing s with
  | nil =>
    intro t hp h1 h2
    cases hp
    omega
  | cons c p ih =>
    intro t hp h1 h2
    by_cases hc : c.1 = a
    · exact ⟨c, List.mem_cons_self _ _, hc⟩
    · have hadj : Adj s c := hp.1
      have hstep : (c.1 - s.1).natAbs ≤ 1 := by
        unfold Adj at hadj
        omega
      have hlt : c.1 < a := by omega
      obtain ⟨c', hc', ha'⟩ := ih c t hp.2 hlt h2
      exact ⟨c', List.mem_cons_of_mem _ hc', ha'⟩

/-- Witness for C2: in `envC2` (solid wall column at `gx = 3`) a sound at
cell (1,1) never reaches the guard at cell (5,5) — with flood bound 100 —
and the guard is left unchanged. -/
theorem alertEnemiesBySound_wall_separation_witness :
    ((∀ c : Int × Int, c.1 = 3 → envC2.levelWalls c.1 c.2 > 0) ∧
     (∀ p, GridPath ((1 : Int), (1 : Int)) p ((5 : Int), (5 : Int)) →
        ∃ c ∈ p, c.1 = 3) ∧
     inBounds 1 1 = true ∧ inBounds 5 5 = true ∧
     ⌊farGuard.posX / CELL⌋ = (5 : Int) ∧ ⌊farGuard.posZ / CELL⌋ = (5 : Int)) ∧
    ((5 * MAP_SIZE + 5) ∉ alertedCellsCore envC2 1 1 100 ∧
     alertEnemyUpdate envC2 (alertedCellsCore envC2 1 1 100) 3 3 0 farGuard
       = farGuard) := by
  have hwall : ∀ c : Int × Int, c.1 = 3 → envC2.levelWalls c.1 c.2 > 0 := by
    intro c hc
    simp [envC2, hc]
  have hsep : ∀ p, GridPath ((1 : Int), (1 : Int)) p ((5 : Int), (5 : Int)) →
      ∃ c ∈ p, c.1 = 3 := by
    intro p hp
    exact gridPath_crosses_column 3 (1, 1) p (5, 5) hp (by norm_num) (by norm_num)
  have hfx : ⌊farGuard.posX / CELL⌋ = (5 : Int) := by
    norm_num [farGuard, idleGuard, CELL]
  have hfz : ⌊farGuard.posZ / CELL⌋ = (5 : Int) := by
    norm_num [farGuard, idleGuard, CELL]
  have main := alertEnemiesBySound_wall_separation envC2 1 1 100 5 5 3 3 0 farGuard
    (fun c => c.1 = 3) hwall hsep rfl rfl hfx hfz
  exact ⟨⟨hwall, hsep, rfl, rfl, hfx, hfz⟩, main.2.1, main.2.2⟩

/-- C3: processing a sound event (`alertEnemyUpdate`, the per-enemy tail of
`alertEnemiesBySound`, applied to the flooded set) (a) never changes an
agent whose AI state is CHASE, ATTACK, DODGE, or PAIN; (b) sends every
other living agent whose cell key floods — and, on multi-story levels,
whose floor is within half a story (`STORY_H · 0.5`) of the source's —
to INVESTIGATE targeting the sound's exact origin with timeout `4 + r·3`;
(c) with `r` the `Math.random()` draw in `[0,1)` that timeout is a
multi-second value in `[4, 7)`. -/
theorem alertEnemiesBySound_investigate_transition
    (env : Env) (sgx sgz maxFlood : Int) (srcX srcZ r : ℚ) (e : Enemy) :
    ((e.aiState = AIState.CHASE ∨ e.aiState = AIState.ATTACK ∨
      e.aiState = AIState.DODGE ∨ e.aiState = AIState.PAIN) →
      alertEnemyUpdate env (alertedCellsCore env sgx sgz maxFlood) srcX srcZ r e
        = e) ∧
    (e.alive = true →
     (⌊e.posX / CELL⌋ * MAP_SIZE + ⌊e.posZ / CELL⌋)
        ∈ alertedCellsCore env sgx sgz maxFlood →
     ¬ (env.levelIsMultiStory = true ∧
        |getFloorHeight env srcX srcZ - e.currentFloorY| > STORY_H * 0.5) →
     ¬ (e.aiState = AIState.CHASE ∨ e.aiState = AIState.ATTACK ∨
        e.aiState = AIState.DODGE ∨ e.aiState = AIState.PAIN) →
     alertEnemyUpdate env (alertedCellsCore env sgx sgz maxFlood) srcX srcZ r e
       = { e with
            alerted := true, aiState := AIState.INVESTIGATE,
            investigateX := srcX, investigateZ := srcZ,
            investigateTimer := 4 + r * 3 }) ∧
    (0 ≤ r → r < 1 → 4 ≤ 4 + r * 3 ∧ 4 + r * 3 < 7) := by
  refine ⟨?_, ?_, ?_⟩
  · intro heng
    unfold alertEnemyUpdate
    by_cases halive : e.alive
    · simp only [halive, Bool.not_true, Bool.false_eq_true, if_false]
      by_cases hmem : (⌊e.posX / CELL⌋ * MAP_SIZE + ⌊e.posZ / CELL⌋)
          ∈ alertedCellsCore env sgx sgz maxFlood
      · simp only [hmem, if_pos, if_true]
        by_cases hms : (env.levelIsMultiStory &&
            decide (|getFloorHeight env srcX srcZ - e.currentFloorY|
              > STORY_H * 0.5)) = true
        · simp [hms]
        · simp [hms, heng]
      · simp [hmem]
    · simp [halive]
  · intro halive hmem hfloor heng
    unfold alertEnemyUpdate
    have hms : ¬ ((env.levelIsMultiStory &&
        decide (|getFloorHeight env srcX srcZ - e.currentFloorY|
          > STORY_H * 0.5)) = true) := by
      rw [Bool.and_eq_true, decide_eq_true_iff]
      exact hfloor
    simp [halive, hmem, hms, heng]
  · intro h0 h1
    constructor
    · nlinarith
    · nlinarith

/-- Witness for C3: in the empty world `envC3`, the idle guard at cell
(1,1) hears a sound at its own cell and transitions to INVESTIGATE with
timeout `4 + (1/2)·3`, while the chasing guard is left unchanged. -/
theorem alertEnemiesBySound_investigate_transition_witness :
    ((chasingGuard.aiState = AIState.CHASE ∨
      chasingGuard.aiState = AIState.ATTACK ∨
      chasingGuard.aiState = AIState.DODGE ∨
      chasingGuard.aiState = AIState.PAIN) ∧
     idleGuard.alive = true ∧
     (⌊idleGuard.posX / CELL⌋ * MAP_SIZE + ⌊idleGuard.posZ / CELL⌋)
        ∈ alertedCellsCore envC3 1 1 0 ∧
     (0 : ℚ) ≤ 1/2 ∧ (1/2 : ℚ) < 1) ∧
    (alertEnemyUpdate envC3 (alertedCellsCore envC3 1 1 0) 3 3 (1/2) chasingGuard
       = chasingGuard ∧
     alertEnemyUpdate envC3 (alertedCellsCore envC3 1 1 0) 3 3 (1/2) idleGuard
       = { idleGuard with
            alerted := true, aiState := AIState.INVESTIGATE,
            investigateX := 3, investigateZ := 3,
            investigateTimer := 4 + (1/2) * 3 } ∧
     (4 : ℚ) ≤ 4 + (1/2) * 3 ∧ (4 : ℚ) + (1/2) * 3 < 7) := by
  have hmem : (⌊idleGuard.posX / CELL⌋ * MAP_SIZE + ⌊idleGuard.posZ / CELL⌋)
      ∈ alertedCellsCore envC3 1 1 0 := by
    have hx : ⌊idleGuard.posX / CELL⌋ = (1 : Int) := by
      norm_num [idleGuard, CELL]
    have hz : ⌊idleGuard.posZ / CELL⌋ = (1 : Int) := by
      norm_num [idleGuard, CELL]
    rw [hx, hz]
    decide
  have t1 := alertEnemiesBySound_investigate_transition envC3 1 1 0 3 3 (1/2)
    chasingGuard
  have t2 := alertEnemiesBySound_investigate_transition envC3 1 1 0 3 3 (1/2)
    idleGuard
  refine ⟨⟨Or.inl rfl, rfl, hmem, by norm_num, by norm_num⟩,
    t1.1 (Or.inl rfl), t2.2.1 rfl hmem ?_ ?_, t2.2.2 (by norm_num) (by norm_num)⟩
  · intro h
    exact absurd h.1 (by simp [envC3])
  · intro h
    rcases h with h | h | h | h <;> simp [idleGuard] at h

theorem finishEnemyAttack_not_attack (r1 r2 r3 : ℚ) (e : Enemy) :
    (finishEnemyAttack r1 r2 r3 e).aiState ≠ AIState.ATTACK := by
  unfold finishEnemyAttack
  by_cases h : (e.typeDef.dodges && decide (r1 < 0.6)) = true
  · simp [h]
  · simp [h]

theorem attackRun_of_not_attack (ticks : List (ℚ × ℚ × ℚ × ℚ)) (e : Enemy)
    (h : e.aiState ≠ AIState.ATTACK) : attackRun ticks e = (e, 0) := by
  cases ticks with
  | nil => rfl
  | cons t rest =>
    obtain ⟨dt, r1, r2, r3⟩ := t
    unfold attackRun
    simp [h]

theorem attackRun_fire_phase :
    ∀ (ticks : List (ℚ × ℚ × ℚ × ℚ)) (e : Enemy),
    e.attackPhase = AtkPhase.fire → e.attackDidFire = true →
    (attackRun ticks e).2 = 0 := by
  intro ticks
  induction ticks with
  | nil => intro e _ _; rfl
  | cons t rest ih =>
    obtain ⟨dt, r1, r2, r3⟩ := t
    intro e hphase hdid
    by_cases hstate : e.aiState = AIState.ATTACK
    · unfold attackRun
      simp only [hstate, ne_eq, not_true_eq_false, Bool.false_eq_true, if_false,
        reduceIte]
      unfold attackCaseTick
      simp only [hphase]
      have haim : ¬ (AtkPhase.fire = AtkPhase.aim ∧
          e.attackTimer - dt ≤ 0) := by
        intro h
        cases h.1
      rw [if_neg haim]
      by_cases hexp : e.attackTimer - dt ≤ 0
      · simp only [hexp, and_true, if_pos, reduceIte]
        simp [attackRun_of_not_attack rest _
          (finishEnemyAttack_not_attack r1 r2 r3 _)]
      · simp only [hexp, and_false, if_neg, reduceIte]
        simpa [hphase] using ih { e with attackTimer := e.attackTimer - dt } hphase hdid
    · rw [attackRun_of_not_attack _ _ hstate]

theorem attackRun_aim_phase :
    ∀ (ticks : List (ℚ × ℚ × ℚ × ℚ)) (e : Enemy),
    e.aiState = AIState.ATTACK → e.attackPhase = AtkPhase.aim →
    e.attackDidFire = false →
    (attackRun ticks e).2 ≤ 1 ∧
    ((attackRun ticks e).1.aiState ≠ AIState.ATTACK →
      (attackRun ticks e).2 = 1) := by
  intro ticks
  induction ticks with
  | nil =>
    intro e hstate _ _
    exact ⟨Nat.zero_le _, fun h => absurd hstate h⟩
  | cons t rest ih =>
    obtain ⟨dt, r1, r2, r3⟩ := t
    intro e hstate hphase hdid
    unfold attackRun
    simp only [hstate, ne_eq, not_true_eq_false, Bool.false_eq_true, if_false,
      reduceIte]
    unfold attackCaseTick
    simp only [hphase, hdid]
    by_cases hexp : e.attackTimer - dt ≤ 0
    · simp only [hexp, and_true, if_pos, reduceIte, Bool.not_false, if_true]
      have hrest : (attackRun rest
          { e with
             attackTimer := 0.2, attackPhase := AtkPhase.fire,
             attackDidFire := true }).2 = 0 :=
        attackRun_fire_phase rest _ rfl rfl
      constructor
      · simp [hrest]
      · intro _
        simp [hrest]
    · simp only [hexp, and_false, if_neg, reduceIte]
      have := ih { e with attackTimer := e.attackTimer - dt } hstate hphase hdid
      simpa [hphase, hdid] using this

/-- C4: over any ATTACK cycle — the run of `case AI.ATTACK` ticks beginning
at `startEnemyAttack` and ending when `finishEnemyAttack` leaves the ATTACK
state — damage resolution (`enemyFireAtPlayer`) runs at most once, and
exactly once whenever the cycle completes, regardless of how many ticks the
aim and fire phases span; moreover the gating flag `attackDidFire` is reset
to `false` both by `startEnemyAttack` and by `finishEnemyAttack`. -/
theorem attack_cycle_fires_exactly_once (e0 : Enemy) (r : ℚ)
    (ticks : List (ℚ × ℚ × ℚ × ℚ)) :
    (startEnemyAttack r e0).attackDidFire = false ∧
    (∀ (r1 r2 r3 : ℚ) (e : Enemy),
       (finishEnemyAttack r1 r2 r3 e).attackDidFire = false) ∧
    (attackRun ticks (startEnemyAttack r e0)).2 ≤ 1 ∧
    ((attackRun ticks (startEnemyAttack r e0)).1.aiState ≠ AIState.ATTACK →
      (attackRun ticks (startEnemyAttack r e0)).2 = 1) := by
  have hrun := attackRun_aim_phase ticks (startEnemyAttack r e0) rfl rfl rfl
  refine ⟨rfl, ?_, hrun.1, hrun.2⟩
  intro r1 r2 r3 e
  unfold finishEnemyAttack
  by_cases h : (e.typeDef.dodges && decide (r1 < 0.6)) = true
  · simp [h]
  · simp [h]

/-- Witness for C4: the guard attack cycle under two 1-second ticks —
the first tick fires (aim timer 0.24 expires), the second finishes the
cycle back to CHASE — fires exactly once. -/
theorem attack_cycle_fires_exactly_once_witness :
    ((attackRun [(1, 0, 0, 0), (1, 0, 0, 0)]
        (startEnemyAttack 0 idleGuard)).1.aiState ≠ AIState.ATTACK) ∧
    ((startEnemyAttack 0 idleGuard).attackDidFire = false ∧
     (attackRun [(1, 0, 0, 0), (1, 0, 0, 0)]
        (startEnemyAttack 0 idleGuard)).2 ≤ 1 ∧
     (attackRun [(1, 0, 0, 0), (1, 0, 0, 0)]
        (startEnemyAttack 0 idleGuard)).2 = 1) := by
  have hne1 : (AtkPhase.fire = AtkPhase.aim) = False := eq_false (by decide)
  have hne2 : (AtkPhase.aim = AtkPhase.fire) = False := eq_false (by decide)
  have hfin : (attackRun [((1 : ℚ), (0 : ℚ), (0 : ℚ), (0 : ℚ)), (1, 0, 0, 0)]
      (startEnemyAttack 0 idleGuard)).1.aiState ≠ AIState.ATTACK := by
    norm_num [attackRun, attackCaseTick, startEnemyAttack, finishEnemyAttack,
      idleGuard, guardType, hne1, hne2]
    decide
  have main := attack_cycle_fires_exactly_once idleGuard 0
    [(1, 0, 0, 0), (1, 0, 0, 0)]
  exact ⟨hfin, main.1, main.2.2.1, main.2.2.2 hfin⟩

theorem lookup_filter_ne {α : Type} (k k' : Int) (h : k' ≠ k) :
    ∀ l : List (Int × α),
    (l.filter (fun p => !(p.1 == k))).lookup k' = l.lookup k' := by
  intro l
  induction l with
  | nil => rfl
  | cons a t ih =>
    obtain ⟨a1, a2⟩ := a
    by_cases hak : a1 = k
    · subst hak
      rw [List.filter_cons]
      simp only [beq_self_eq_true, Bool.not_true, Bool.false_eq_true, if_false]
      rw [ih, List.lookup_cons]
      have : (k' == a1) = false := by simp [h]
      simp [this]
    · rw [List.filter_cons]
      have hkeep : (!(a1 == k) : Bool) = true := by simp [hak]
      simp only [hkeep, if_true, reduceIte]
      rw [List.lookup_cons, List.lookup_cons]
      by_cases hk'a : (k' == a1) = true
      · simp [hk'a]
      · have : (k' == a1) = false := by simpa using hk'a
        simp [this, ih]

theorem lookup_updA_self {α : Type} (l : List (Int × α)) (k : Int) (v : α) :
    (updA l k v).lookup k = some v := by
  unfold updA
  rw [List.lookup_cons]
  simp

theorem lookup_updA_ne {α : Type} (l : List (Int × α)) (k : Int) (v : α)
    (k' : Int) (h : k' ≠ k) : (updA l k v).lookup k' = l.lookup k' := by
  unfold updA
  rw [List.lookup_cons]
  have : (k' == k) = false := by simp [h]
  simp only [this, Bool.false_eq_true, if_false]
  exact lookup_filter_ne k k' h l

theorem lookup_updA_isSome {α : Type} (l : List (Int × α)) (k : Int) (v : α)
    (k' : Int) (h : (l.lookup k').isSome) :
    ((updA l k v).lookup k').isSome := by
  by_cases hk : k' = k
  · subst hk
    rw [lookup_updA_self]
    rfl
  · rw [lookup_updA_ne l k v k' hk]
    exact h

theorem mem_updA {α : Type} (l : List (Int × α)) (k : Int) (v : α)
    (p : Int × α) (hp : p ∈ updA l k v) : p = (k, v) ∨ p ∈ l := by
  unfold updA at hp
  rcases List.mem_cons.mp hp with h | h
  · exact Or.inl h
  · exact Or.inr (List.mem_of_mem_filter h)

theorem isTileBlocked_false_iff (env : Env) (x z : Int) :
    isTileBlocked env x z = false ↔
    inBounds x z = true ∧ env.levelWalls x z ≤ 0 := by
  unfold isTileBlocked
  by_cases hb : inBounds x z
  · by_cases hw : env.levelWalls x z > 0
    · simp only [hb, Bool.not_true, Bool.false_eq_true, if_false, hw, if_true,
        reduceIte]
      constructor
      · intro hc
        cases hc
      · intro hc
        omega
    · simp only [hb, Bool.not_true, Bool.false_eq_true, if_false, hw, reduceIte]
      simp only [true_and]
      constructor
      · intro _
        omega
      · intro _
        trivial
  · have hb' : inBounds x z = false := by simpa using hb
    simp [hb']

theorem moveCostAt_bounds (env : Env) (x z : Int) :
    1 ≤ moveCostAt env x z ∧ moveCostAt env x z ≤ 3 := by
  unfold moveCostAt
  match getDoorAt env x z with
  | some d =>
    by_cases h : d.openFlag <;> simp [h]
  | none => simp

theorem cellOfKey_keyOf (x z : Int) (h : inBounds x z = true) :
    cellOfKey (keyOf x z) = (x, z) := by
  rw [inBounds_iff] at h
  unfold cellOfKey keyOf MAP_SIZE
  have h1 : (x * 64 + z) / 64 = x := by omega
  have h2 : (x * 64 + z) % 64 = z := by omega
  rw [h1, h2]

theorem keyOf_inj (x z x' z' : Int)
    (h : inBounds x z = true) (h' : inBounds x' z' = true)
    (heq : keyOf x z = keyOf x' z') : x = x' ∧ z = z' := by
  rw [inBounds_iff] at h h'
  unfold keyOf MAP_SIZE at heq
  omega

theorem popMin_mem (l : List PNode) (n : PNode) (rest : List PNode)
    (h : popMin l = some (n, rest)) : n ∈ l := by
  unfold popMin at h
  match l with
  | [] => cases h
  | n0 :: rest0 =>
    simp only at h
    cases hget : (n0 :: rest0).get? (minFIdx rest0 1 0 n0.f) with
    | none => rw [hget] at h; cases h
    | some m =>
      rw [hget] at h
      cases h
      exact List.get?_mem hget

theorem popMin_rest_mem (l : List PNode) (n : PNode) (rest : List PNode)
    (h : popMin l = some (n, rest)) : ∀ m ∈ rest, m ∈ l := by
  unfold popMin at h
  match l with
  | [] => cases h
  | n0 :: rest0 =>
    simp only at h
    cases hget : (n0 :: rest0).get? (minFIdx rest0 1 0 n0.f) with
    | none => rw [hget] at h; cases h
    | some m =>
      rw [hget] at h
      cases h
      intro m hm
      exact (List.eraseIdx_sublist (n0 :: rest0) (minFIdx rest0 1 0 n0.f)).mem hm

theorem lookup_mem {α : Type} (k : Int) (v : α) :
    ∀ l : List (Int × α), l.lookup k = some v → (k, v) ∈ l := by
  intro l
  induction l with
  | nil => intro h; cases h
  | cons a t ih =>
    obtain ⟨a1, a2⟩ := a
    intro h
    rw [List.lookup_cons] at h
    by_cases hk : (k == a1) = true
    · simp only [hk, if_true, reduceIte] at h
      injection h with h
      subst h
      have : k = a1 := by simpa using hk
      subst this
      exact List.mem_cons_self _ _
    · have : (k == a1) = false := by simpa using hk
      simp only [this, Bool.false_eq_true, if_false] at h
      exact List.mem_cons_of_mem _ (ih h)

theorem expandDir_eq_of_blocked (env : Env) (gx gz : Int) (cur : PNode)
    (st : AState) (d : Int × Int)
    (h : isTileBlocked env (cur.x + d.1) (cur.z + d.2) = true) :
    expandDir env gx gz cur st d = st := by
  unfold expandDir
  simp [h]

theorem expandDir_eq_of_noimp (env : Env) (gx gz : Int) (cur : PNode)
    (st : AState) (d : Int × Int)
    (h : isTileBlocked env (cur.x + d.1) (cur.z + d.2) = false)
    (h2 : improves st.g (keyOf (cur.x + d.1) (cur.z + d.2))
      ((st.g.lookup (keyOf cur.x cur.z)).getD 0 +
        moveCostAt env (cur.x + d.1) (cur.z + d.2)) = false) :
    expandDir env gx gz cur st d = st := by
  unfold expandDir
  simp [h, h2]

theorem expandDir_eq_of_imp (env : Env) (gx gz : Int) (cur : PNode)
    (st : AState) (d : Int × Int)
    (h : isTileBlocked env (cur.x + d.1) (cur.z + d.2) = false)
    (h2 : improves st.g (keyOf (cur.x + d.1) (cur.z + d.2))
      ((st.g.lookup (keyOf cur.x cur.z)).getD 0 +
        moveCostAt env (cur.x + d.1) (cur.z + d.2)) = true) :
    expandDir env gx gz cur st d =
      { openL := st.openL ++
          [⟨cur.x + d.1, cur.z + d.2,
            ((st.g.lookup (keyOf cur.x cur.z)).getD 0 +
              moveCostAt env (cur.x + d.1) (cur.z + d.2)) +
            ((gx - (cur.x + d.1)).natAbs + (gz - (cur.z + d.2)).natAbs)⟩],
        g := updA st.g (keyOf (cur.x + d.1) (cur.z + d.2))
          ((st.g.lookup (keyOf cur.x cur.z)).getD 0 +
            moveCostAt env (cur.x + d.1) (cur.z + d.2)),
        cf := updA st.cf (keyOf (cur.x + d.1) (cur.z + d.2))
          (keyOf cur.x cur.z) } := by
  unfold expandDir
  simp [h, h2]

theorem improves_true_of_some (g : List (Int × Nat)) (k : Int) (t old : Nat)
    (hl : g.lookup k = some old) (h : improves g k t = true) : t < old := by
  unfold improves at h
  rw [hl] at h
  simpa using h

theorem adj_ne (a b : Int × Int) (h : Adj a b) : b ≠ a := by
  intro heq
  subst heq
  unfold Adj at h
  omega

/-- Relaxation `expandDir` preserves the A* invariant, the g-score bound `B + 3`
(`B` bounds the g-score of the node being expanded), and the facts about
the expanded node `cur` that later relaxations in the same `for` loop rely
on. -/
theorem expandDir_preserves (env : Env) (sx sz gx gz : Int) (cur : PNode)
    (B gc : Nat) (d : Int × Int) (hd : d ∈ dirs) (st : AState)
    (hinv : AInv env sx sz st) (hgb : GBound st (B + 3))
    (hcb : inBounds cur.x cur.z = true)
    (hcg : st.g.lookup (keyOf cur.x cur.z) = some gc) (hgcB : gc ≤ B)
    (hccf : (cur.x = sx ∧ cur.z = sz) ∨
      (st.cf.lookup (keyOf cur.x cur.z)).isSome) :
    AInv env sx sz (expandDir env gx gz cur st d) ∧
    GBound (expandDir env gx gz cur st d) (B + 3) ∧
    (expandDir env gx gz cur st d).g.lookup (keyOf cur.x cur.z) = some gc ∧
    ((cur.x = sx ∧ cur.z = sz) ∨
      ((expandDir env gx gz cur st d).cf.lookup (keyOf cur.x cur.z)).isSome) := by
  by_cases hblock : isTileBlocked env (cur.x + d.1) (cur.z + d.2) = true
  · rw [expandDir_eq_of_blocked env gx gz cur st d hblock]
    exact ⟨hinv, hgb, hcg, hccf⟩
  · have hblock' : isTileBlocked env (cur.x + d.1) (cur.z + d.2) = false := by
      simpa using hblock
    by_cases himp : improves st.g (keyOf (cur.x + d.1) (cur.z + d.2))
        ((st.g.lookup (keyOf cur.x cur.z)).getD 0 +
          moveCostAt env (cur.x + d.1) (cur.z + d.2)) = true
    · rw [expandDir_eq_of_imp env gx gz cur st d hblock' himp]
      have hnb := (isTileBlocked_false_iff env _ _).mp hblock'
      have hadj : Adj (cur.x, cur.z) (cur.x + d.1, cur.z + d.2) :=
        adj_of_dir cur.x cur.z d hd
      have htg : (st.g.lookup (keyOf cur.x cur.z)).getD 0 +
          moveCostAt env (cur.x + d.1) (cur.z + d.2)
          = gc + moveCostAt env (cur.x + d.1) (cur.z + d.2) := by
        rw [hcg]
        rfl
      have hcost := moveCostAt_bounds env (cur.x + d.1) (cur.z + d.2)
      have hnkck : keyOf (cur.x + d.1) (cur.z + d.2) ≠ keyOf cur.x cur.z := by
        intro h
        obtain ⟨h1, h2⟩ := keyOf_inj _ _ _ _ hnb.1 hcb h
        have := adj_ne _ _ hadj
        exact this (by rw [Prod.ext_iff]; exact ⟨h1, h2⟩)
      have hnksk : keyOf (cur.x + d.1) (cur.z + d.2) ≠ keyOf sx sz := by
        intro h
        have h0 : st.g.lookup (keyOf (cur.x + d.1) (cur.z + d.2)) = some 0 := by
          rw [h]
          exact hinv.start_g
        have := improves_true_of_some _ _ _ _ h0 himp
        omega
      rw [htg] at himp ⊢
      refine ⟨⟨?_, ?_, ?_, ?_⟩, ?_, ?_, ?_⟩
      · -- start_g
        rw [lookup_updA_ne _ _ _ _ (fun h => hnksk h.symm)]
        exact hinv.start_g
      · -- start_cf
        rw [lookup_updA_ne _ _ _ _ (fun h => hnksk h.symm)]
        exact hinv.start_cf
      · -- open_ok
        intro n hn
        rcases List.mem_append.mp hn with hold | hnew
        · obtain ⟨h1, h2, h3⟩ := hinv.open_ok n hold
          refine ⟨h1, lookup_updA_isSome _ _ _ _ h2, ?_⟩
          rcases h3 with h3 | h3
          · exact Or.inl h3
          · exact Or.inr (lookup_updA_isSome _ _ _ _ h3)
        · rcases List.mem_singleton.mp hnew with rfl
          refine ⟨hnb.1, ?_, Or.inr ?_⟩
          · rw [lookup_updA_self]
            rfl
          · rw [lookup_updA_self]
            rfl
      · -- cf_ok
        intro k k' hk
        by_cases hknk : k = keyOf (cur.x + d.1) (cur.z + d.2)
        · subst hknk
          rw [lookup_updA_self] at hk
          injection hk with hk
          subst hk
          refine ⟨cur.x + d.1, cur.z + d.2, cur.x, cur.z,
            gc + moveCostAt env (cur.x + d.1) (cur.z + d.2), gc,
            rfl, hnb.1, hblock', rfl, hcb, hadj, ?_, ?_, ?_, ?_⟩
          · exact lookup_updA_self _ _ _
          · rw [lookup_updA_ne _ _ _ _ (fun h => hnkck h.symm)]
            exact hcg
          · omega
          · rcases hccf with h | h
            · exact Or.inl h
            · exact Or.inr (lookup_updA_isSome _ _ _ _ h)
        · rw [lookup_updA_ne _ _ _ _ hknk] at hk
          obtain ⟨x, z, x', z', gk, gk', hkxz, hbxz, hblk, hk'xz, hbx'z',
            hadj', hgk, hgk', hlt, hor⟩ := hinv.cf_ok k k' hk
          by_cases hk'nk : k' = keyOf (cur.x + d.1) (cur.z + d.2)
          · have hold : st.g.lookup k' = some gk' := hgk'
            have himp' : gc + moveCostAt env (cur.x + d.1) (cur.z + d.2) < gk' := by
              apply improves_true_of_some _ _ _ gk' _ himp
              rw [← hk'nk]
              exact hold
            refine ⟨x, z, x', z', gk,
              gc + moveCostAt env (cur.x + d.1) (cur.z + d.2),
              hkxz, hbxz, hblk, hk'xz, hbx'z', hadj', ?_, ?_, ?_, ?_⟩
            · rw [lookup_updA_ne _ _ _ _ hknk]
              exact hgk
            · rw [hk'nk, lookup_updA_self]
            · omega
            · rcases hor with h | h
              · exact Or.inl h
              · exact Or.inr (lookup_updA_isSome _ _ _ _ h)
          · refine ⟨x, z, x', z', gk, gk', hkxz, hbxz, hblk, hk'xz, hbx'z',
              hadj', ?_, ?_, hlt, ?_⟩
            · rw [lookup_updA_ne _ _ _ _ hknk]
              exact hgk
            · rw [lookup_updA_ne _ _ _ _ hk'nk]
              exact hgk'
            · rcases hor with h | h
              · exact Or.inl h
              · exact Or.inr (lookup_updA_isSome _ _ _ _ h)
      · -- GBound
        intro q hq
        rcases mem_updA _ _ _ _ hq with rfl | hq'
        · have := hcost.2
          simp only
          omega
        · exact hgb q hq'
      · -- cur g lookup preserved
        rw [lookup_updA_ne _ _ _ _ (fun h => hnkck h.symm)]
        exact hcg
      · -- cur cf fact preserved
        rcases hccf with h | h
        · exact Or.inl h
        · exact Or.inr (lookup_updA_isSome _ _ _ _ h)
    · have himp' : improves st.g (keyOf (cur.x + d.1) (cur.z + d.2))
          ((st.g.lookup (keyOf cur.x cur.z)).getD 0 +
            moveCostAt env (cur.x + d.1) (cur.z + d.2)) = false := by
        simpa using himp
      rw [expandDir_eq_of_noimp env gx gz cur st d hblock' himp']
      exact ⟨hinv, hgb, hcg, hccf⟩

/-- Following `cameFrom` pointers from any recorded key yields a 4-connected
path of unblocked cells from the start cell; the fuel is sufficient as soon
as it exceeds the key's g-score, because g-scores strictly decrease along
parent pointers. -/
theorem reconstructPath_sound (env : Env) (sx sz : Int) (st : AState)
    (hinv : AInv env sx sz st) (hsb : inBounds sx sz = true) :
    ∀ (fuel : Nat) (k : Int) (gk : Nat),
    st.g.lookup k = some gk → gk < fuel →
    (k = keyOf sx sz ∨ (st.cf.lookup k).isSome) →
    GridPath (sx, sz) (reconstructPath st.cf fuel k) (cellOfKey k) ∧
    ∀ c ∈ reconstructPath st.cf fuel k, isTileBlocked env c.1 c.2 = false := by
  intro fuel
  induction fuel with
  | zero => intro k gk _ hlt _; omega
  | succ f ih =>
    intro k gk hgk hlt hk
    unfold reconstructPath
    cases hcf : st.cf.lookup k with
    | none =>
      rcases hk with rfl | hsome
      · constructor
        · show GridPath (sx, sz) [] (cellOfKey (keyOf sx sz))
          rw [cellOfKey_keyOf sx sz hsb]
          rfl
        · intro c hc
          cases hc
      · rw [hcf] at hsome
        cases hsome
    | some k' =>
      obtain ⟨x, z, x', z', gk0, gk', hkxz, hbxz, hblk, hk'xz, hbx'z', hadj,
        hgk0, hgk', hlt', hor⟩ := hinv.cf_ok k k' hcf
      have hgkeq : gk0 = gk := by
        rw [hgk0] at hgk
        injection hgk
      have hk'fact : k' = keyOf sx sz ∨ (st.cf.lookup k').isSome := by
        rcases hor with ⟨h1, h2⟩ | h
        · left
          rw [hk'xz, h1, h2]
        · exact Or.inr h
      have hrec := ih k' gk' hgk' (by omega) hk'fact
      have hck : cellOfKey k = (x, z) := by
        rw [hkxz]
        exact cellOfKey_keyOf _ _ hbxz
      have hck' : cellOfKey k' = (x', z') := by
        rw [hk'xz]
        exact cellOfKey_keyOf _ _ hbx'z'
      constructor
      · rw [hck]
        have := gridPath_append_single (x, z) (sx, sz)
          (reconstructPath st.cf f k') (cellOfKey k') hrec.1
          (by rw [hck']; exact hadj)
        exact this
      · intro c hc
        rcases List.mem_append.mp hc with h | h
        · exact hrec.2 c h
        · rcases List.mem_singleton.mp h with rfl
          rw [hck]
          exact hblk

/-- Any path the A* loop returns is a 4-connected, wall-free path from the
start cell to the goal cell. -/
theorem astarLoop_sound (env : Env) (sx sz gx gz : Int)
    (hsb : inBounds sx sz = true) (rfuel : Nat) :
    ∀ (fuel : Nat) (st : AState) (B : Nat) (p : List (Int × Int)),
    AInv env sx sz st → GBound st B → B + 3 * fuel < rfuel →
    astarLoop env gx gz rfuel fuel st = some p →
    GridPath (sx, sz) p (gx, gz) ∧
    ∀ c ∈ p, isTileBlocked env c.1 c.2 = false := by
  intro fuel
  induction fuel with
  | zero => intro st B p _ _ _ h; cases h
  | succ f ih =>
    intro st B p hinv hgb hlt hrun
    unfold astarLoop at hrun
    cases hpop : popMin st.openL with
    | none =>
      rw [hpop] at hrun
      cases hrun
    | some pr =>
      obtain ⟨cur, rest⟩ := pr
      rw [hpop] at hrun
      simp only at hrun
      obtain ⟨hcb, hcgs, hccf⟩ := hinv.open_ok cur (popMin_mem _ _ _ hpop)
      obtain ⟨gk, hgk⟩ := Option.isSome_iff_exists.mp hcgs
      have hgkB : gk ≤ B := hgb _ (lookup_mem _ _ _ hgk)
      by_cases hgoal : cur.x = gx ∧ cur.z = gz
      · rw [if_pos hgoal] at hrun
        have hccf' : keyOf cur.x cur.z = keyOf sx sz ∨
            (st.cf.lookup (keyOf cur.x cur.z)).isSome := by
          rcases hccf with ⟨h1, h2⟩ | h
          · left
            rw [h1, h2]
          · exact Or.inr h
        have hrec := reconstructPath_sound env sx sz st hinv hsb rfuel
          (keyOf cur.x cur.z) gk hgk (by omega) hccf'
        by_cases hlen :
            (reconstructPath st.cf rfuel (keyOf cur.x cur.z)).length > 0
        · rw [if_pos hlen] at hrun
          injection hrun with hrun
          subst hrun
          have hcell : cellOfKey (keyOf cur.x cur.z) = (gx, gz) := by
            rw [cellOfKey_keyOf _ _ hcb, hgoal.1, hgoal.2]
          rw [hcell] at hrec
          exact hrec
        · rw [if_neg hlen] at hrun
          cases hrun
      · rw [if_neg hgoal] at hrun
        obtain ⟨gc, hgc⟩ := Option.isSome_iff_exists.mp hcgs
        have hgcB : gc ≤ B := hgb _ (lookup_mem _ _ _ hgc)
        have hinv0 : AInv env sx sz ⟨rest, st.g, st.cf⟩ := by
          refine ⟨hinv.start_g, hinv.start_cf, ?_, hinv.cf_ok⟩
          intro n hn
          exact hinv.open_ok n (popMin_rest_mem _ _ _ hpop n hn)
        have hfold := foldl_preserve
          (fun st' : AState =>
            AInv env sx sz st' ∧ GBound st' (B + 3) ∧
            st'.g.lookup (keyOf cur.x cur.z) = some gc ∧
            ((cur.x = sx ∧ cur.z = sz) ∨
              (st'.cf.lookup (keyOf cur.x cur.z)).isSome))
          (expandDir env gx gz cur) dirs
          (fun st' d hd hP =>
            expandDir_preserves env sx sz gx gz cur B gc d hd st'
              hP.1 hP.2.1 hcb hP.2.2.1 hgcB hP.2.2.2)
          ⟨rest, st.g, st.cf⟩
          ⟨hinv0, fun q hq => Nat.le_trans (hgb q hq) (by omega), hgc, hccf⟩
        exact ih _ (B + 3) p hfold.1 hfold.2.1 (by omega) hrun

/-- Any path `findPath` returns is a 4-connected, wall-free path from the
start cell to the goal cell. -/
theorem findPathGrid_sound (env : Env) (sx sz gx gz : Int) (maxSteps : Nat)
    (p : List (Int × Int)) (hsb : inBounds sx sz = true)
    (hp : findPathGrid env sx sz gx gz maxSteps = some p) :
    GridPath (sx, sz) p (gx, gz) ∧
    ∀ c ∈ p, isTileBlocked env c.1 c.2 = false := by
  unfold findPathGrid at hp
  by_cases heq : sx = gx ∧ sz = gz
  · rw [if_pos heq] at hp
    cases hp
  · rw [if_neg heq] at hp
    refine astarLoop_sound env sx sz gx gz hsb (3 * maxSteps + 1) maxSteps _ 0 p
      ?_ ?_ (by omega) hp
    · refine ⟨?_, rfl, ?_, ?_⟩
      · rw [List.lookup_cons]
        simp
      · intro n hn
        rcases List.mem_singleton.mp hn with rfl
        refine ⟨hsb, ?_, Or.inl ⟨rfl, rfl⟩⟩
        rw [List.lookup_cons]
        simp
      · intro k k' hk
        cases hk
    · intro q hq
      rcases List.mem_singleton.mp hq with rfl
      exact Nat.le_refl 0

theorem getDoorAt_some_inv (env : Env) (x z : Int) (d : Door)
    (h : getDoorAt env x z = some d) :
    inBounds x z = true ∧ env.levelWalls x z = -1 := by
  unfold getDoorAt at h
  by_cases hb : inBounds x z
  · by_cases hw : env.levelWalls x z ≠ -1
    · simp [hb, hw] at h
    · push_neg at hw
      exact ⟨hb, hw⟩
  · simp [hb] at h

theorem gridPath_length_ge :
    ∀ (p : List (Int × Int)) (s t : Int × Int), GridPath s p t →
    (t.1 - s.1).natAbs + (t.2 - s.2).natAbs ≤ p.length := by
  intro p
  induction p with
  | nil =>
    intro s t h
    cases h
    omega
  | cons c rest ih =>
    intro s t h
    have hadj : Adj s c := h.1
    have hrec := ih c t h.2
    unfold Adj at hadj
    simp only [List.length_cons]
    omega

theorem pathCost_decomposition (env : Env) :
    ∀ p : List (Int × Int),
    pathCost env p = p.length + 2 * closedDoorCount env p := by
  intro p
  induction p with
  | nil => rfl
  | cons c rest ih =>
    unfold pathCost closedDoorCount at ih ⊢
    rw [List.map_cons, List.sum_cons, List.filter_cons]
    have hc : moveCostAt env c.1 c.2 =
        if hasClosedDoor env c.1 c.2 then 3 else 1 := by
      unfold moveCostAt hasClosedDoor
      cases getDoorAt env c.1 c.2 with
      | none => rfl
      | some d =>
        by_cases h : d.openFlag <;> simp [h]
    by_cases h : hasClosedDoor env c.1 c.2 = true
    · rw [hc]
      simp only [h, if_true, reduceIte, List.length_cons, List.length_cons]
      omega
    · rw [hc]
      simp only [h, Bool.false_eq_true, if_false, List.length_cons]
      omega

/-- C5: the pathfinder's cost model — (a) every cell of a returned path is
pathfinder-passable (in particular never a solid-wall cell, whose code is
`> 0`); (b) a cell holding a door is always passable for the pathfinder
(finite cost) and entering it costs 3 when the door's `open` flag is clear
(a closed door) and 1 otherwise; (c) entering any doorless cell costs 1. -/
theorem findPath_door_cost_and_wall_rule (env : Env) (sx sz gx gz : Int)
    (maxSteps : Nat) (p : List (Int × Int))
    (hsb : inBounds sx sz = true)
    (hp : findPathGrid env sx sz gx gz maxSteps = some p) :
    (∀ c ∈ p, isTileBlocked env c.1 c.2 = false ∧ ¬ env.levelWalls c.1 c.2 > 0) ∧
    (∀ x z d, getDoorAt env x z = some d →
      isTileBlocked env x z = false ∧
      moveCostAt env x z = (if d.openFlag then 1 else 3)) ∧
    (∀ x z, getDoorAt env x z = none → moveCostAt env x z = 1) := by
  refine ⟨?_, ?_, ?_⟩
  · intro c hc
    have hfree := (findPathGrid_sound env sx sz gx gz maxSteps p hsb hp).2 c hc
    have := (isTileBlocked_false_iff env c.1 c.2).mp hfree
    exact ⟨hfree, by omega⟩
  · intro x z d hd
    obtain ⟨hb, hw⟩ := getDoorAt_some_inv env x z d hd
    have hfree : isTileBlocked env x z = false := by
      rw [isTileBlocked_false_iff]
      exact ⟨hb, by omega⟩
    refine ⟨hfree, ?_⟩
    unfold moveCostAt
    rw [hd]
    by_cases h : d.openFlag <;> simp [h]
  · intro x z hd
    unfold moveCostAt
    rw [hd]

/-- Witness for C5: a concrete search in the empty world `envC3` from cell
(0,0) to (3,0) returns the direct 3-step path. -/
theorem findPath_door_cost_and_wall_rule_witness :
    (inBounds 0 0 = true ∧
     findPathGrid envC3 0 0 3 0 200 = some [(1, 0), (2, 0), (3, 0)]) ∧
    ((∀ c ∈ [((1 : Int), (0 : Int)), (2, 0), (3, 0)],
        isTileBlocked envC3 c.1 c.2 = false ∧ ¬ envC3.levelWalls c.1 c.2 > 0) ∧
     (∀ x z d, getDoorAt envC3 x z = some d →
        isTileBlocked envC3 x z = false ∧
        moveCostAt envC3 x z = (if d.openFlag then 1 else 3)) ∧
     (∀ x z, getDoorAt envC3 x z = none → moveCostAt envC3 x z = 1)) := by
  have hrun : findPathGrid envC3 0 0 3 0 200 = some [(1, 0), (2, 0), (3, 0)] := by
    decide
  exact ⟨⟨rfl, hrun⟩,
    findPath_door_cost_and_wall_rule envC3 0 0 3 0 200 _ rfl hrun⟩

/-- C6: `findPath` reports failure as `null`, never as an exception (the
embedding is a total function into `Option`): (a) identical start and goal
cells yield `none` immediately; (b) an exhausted expansion budget (the
loop fuel reaching 0 with the goal still unexpanded) yields `none`;
(c) when no wall-free connected route from start to goal exists at all,
the result is `none`. -/
theorem findPath_null_cases (env : Env) (startX startZ goalX goalZ : ℚ)
    (sx sz gx gz : Int) (maxSteps : Nat) :
    (⌊startX / CELL⌋ = ⌊goalX / CELL⌋ ∧ ⌊startZ / CELL⌋ = ⌊goalZ / CELL⌋ →
      findPath env startX startZ goalX goalZ maxSteps = none) ∧
    (∀ st : AState, astarLoop env gx gz (3 * maxSteps + 1) 0 st = none) ∧
    (inBounds sx sz = true →
     ¬ (∃ p, GridPath (sx, sz) p (gx, gz) ∧
          ∀ c ∈ p, isTileBlocked env c.1 c.2 = false) →
     findPathGrid env sx sz gx gz maxSteps = none) := by
  refine ⟨?_, fun _ => rfl, ?_⟩
  · intro ⟨h1, h2⟩
    unfold findPath findPathGrid
    rw [if_pos ⟨h1, h2⟩]
  · intro hsb hnoroute
    cases hres : findPathGrid env sx sz gx gz maxSteps with
    | none => rfl
    | some p =>
      exact absurd ⟨p, findPathGrid_sound env sx sz gx gz maxSteps p hsb hres⟩
        hnoroute

/-- Witness for C6: identical cells yield `none` in the empty world; the
zero-fuel loop yields `none`; and from the walled-in cell (1,1) of `envC6`
no route exists, so the search yields `none`. -/
theorem findPath_null_cases_witness :
    ((⌊(1 : ℚ) / CELL⌋ = ⌊(1 : ℚ) / CELL⌋ ∧ ⌊(1 : ℚ) / CELL⌋ = ⌊(1 : ℚ) / CELL⌋) ∧
     inBounds 1 1 = true ∧
     ¬ (∃ p, GridPath ((1 : Int), (1 : Int)) p ((5 : Int), (5 : Int)) ∧
          ∀ c ∈ p, isTileBlocked envC6 c.1 c.2 = false)) ∧
    (findPath envC3 1 1 1 1 200 = none ∧
     astarLoop envC6 5 5 601 0 ⟨[], [], []⟩ = none ∧
     findPathGrid envC6 1 1 5 5 200 = none) := by
  have hnoroute : ¬ (∃ p, GridPath ((1 : Int), (1 : Int)) p ((5 : Int), (5 : Int)) ∧
      ∀ c ∈ p, isTileBlocked envC6 c.1 c.2 = false) := by
    rintro ⟨p, hp, hopen⟩
    cases p with
    | nil =>
      have : ((1 : Int), (1 : Int)) = ((5 : Int), (5 : Int)) := hp
      cases this
    | cons c rest =>
      have hadj : Adj (1, 1) c := hp.1
      have hfree := hopen c (List.mem_cons_self _ _)
      obtain ⟨c1, c2⟩ := c
      have hcases : (c1 = 2 ∧ c2 = 1) ∨ (c1 = 0 ∧ c2 = 1) ∨
          (c1 = 1 ∧ c2 = 2) ∨ (c1 = 1 ∧ c2 = 0) := by
        unfold Adj at hadj
        simp only at hadj
        omega
      rcases hcases with ⟨h1, h2⟩ | ⟨h1, h2⟩ | ⟨h1, h2⟩ | ⟨h1, h2⟩ <;>
        subst h1 <;> subst h2 <;> exact absurd hfree (by decide)
  have main := findPath_null_cases envC6 1 1 1 1 1 1 5 5 200
  have mainId := findPath_null_cases envC3 1 1 1 1 1 1 5 5 200
  exact ⟨⟨⟨rfl, rfl⟩, rfl, hnoroute⟩,
    mainId.1 ⟨rfl, rfl⟩, main.2.1 ⟨[], [], []⟩, main.2.2 rfl hnoroute⟩

/-- C7 as stated is false: in `envC7` the query from world point (1,1)
(cell (0,0)) to world point (5,1) (cell (2,0)) returns the detour path
[(0,1),(1,1),(2,1),(2,0)] of total A* cost 4, while the start–goal
Manhattan distance is 2 and the path traverses 0 closed doors: the cost
exceeds `Manhattan + 2 × closed doors` = 2. -/
theorem findPath_manhattan_bound_counterexample :
    findPath envC7 1 1 5 1 200 = some [(0, 1), (1, 1), (2, 1), (2, 0)] ∧
    pathCost envC7 [(0, 1), (1, 1), (2, 1), (2, 0)] = 4 ∧
    closedDoorCount envC7 [(0, 1), (1, 1), (2, 1), (2, 0)] = 0 ∧
    (((2 : Int) - 0).natAbs + ((0 : Int) - 0).natAbs) = 2 ∧
    ¬ (pathCost envC7 [(0, 1), (1, 1), (2, 1), (2, 0)] ≤
        (((2 : Int) - 0).natAbs + ((0 : Int) - 0).natAbs) +
        2 * closedDoorCount envC7 [(0, 1), (1, 1), (2, 1), (2, 0)]) := by
  have hconv : findPath envC7 1 1 5 1 200 = findPathGrid envC7 0 0 2 0 200 := by
    unfold findPath
    norm_num [CELL]
  rw [hconv]
  refine ⟨by decide, by decide, by decide, by decide, by decide⟩

/-- C7 (amended): for every returned path, the total A* cost is exactly
the number of steps plus 2 per closed door traversed, and the number of
steps is at least the start–goal Manhattan distance; so the cost exceeds
`Manhattan + 2 × closed doors` exactly by the length of the forced detour
(which the counterexample shows can be positive). -/
theorem findPath_cost_decomposition_bound (env : Env) (sx sz gx gz : Int)
    (maxSteps : Nat) (p : List (Int × Int))
    (hsb : inBounds sx sz = true)
    (hp : findPathGrid env sx sz gx gz maxSteps = some p) :
    pathCost env p = p.length + 2 * closedDoorCount env p ∧
    (gx - sx).natAbs + (gz - sz).natAbs ≤ p.length := by
  refine ⟨pathCost_decomposition env p, ?_⟩
  have := gridPath_length_ge p (sx, sz) (gx, gz)
    (findPathGrid_sound env sx sz gx gz maxSteps p hsb hp).1
  simpa using this

/-- Witness for the amended C7 on the counterexample run itself:
cost 4 = 4 steps + 0 door surcharge, and 4 steps ≥ Manhattan distance 2. -/
theorem findPath_cost_decomposition_bound_witness :
    (inBounds 0 0 = true ∧
     findPathGrid envC7 0 0 2 0 200 = some [(0, 1), (1, 1), (2, 1), (2, 0)]) ∧
    (pathCost envC7 [(0, 1), (1, 1), (2, 1), (2, 0)] =
       [((0 : Int), (1 : Int)), (1, 1), (2, 1), (2, 0)].length +
       2 * closedDoorCount envC7 [(0, 1), (1, 1), (2, 1), (2, 0)] ∧
     ((2 : Int) - 0).natAbs + ((0 : Int) - 0).natAbs ≤
       [((0 : Int), (1 : Int)), (1, 1), (2, 1), (2, 0)].length) := by
  have hrun : findPathGrid envC7 0 0 2 0 200
      = some [(0, 1), (1, 1), (2, 1), (2, 0)] := by
    decide
  exact ⟨⟨rfl, hrun⟩,
    findPath_cost_decomposition_bound envC7 0 0 2 0 200 _ rfl hrun⟩

theorem getEnemyDeathFrames_congr (e e' : Enemy)
    (h : e.enemyType = e'.enemyType) :
    getEnemyDeathFrames e = getEnemyDeathFrames e' := by
  unfold getEnemyDeathFrames
  rw [h]

/-- The DYING/DEAD run invariant: the enemy stays non-alive and of the
same type, and is either DYING at a valid frame or DEAD at the final
frame. -/
theorem deathRun_inv :
    ∀ (dts : List ℚ) (e : Enemy),
    e.alive = false →
    (e.aiState = AIState.DYING ∧
        e.deathFrame ≤ (getEnemyDeathFrames e).length - 1) ∨
      (e.aiState = AIState.DEAD ∧
        e.deathFrame = (getEnemyDeathFrames e).length - 1) →
    (deathRun dts e).alive = false ∧
    (deathRun dts e).enemyType = e.enemyType ∧
    (((deathRun dts e).aiState = AIState.DYING ∧
        (deathRun dts e).deathFrame ≤ (getEnemyDeathFrames e).length - 1) ∨
     ((deathRun dts e).aiState = AIState.DEAD ∧
        (deathRun dts e).deathFrame = (getEnemyDeathFrames e).length - 1)) := by
  intro dts
  induction dts with
  | nil => intro e ha hP; exact ⟨ha, rfl, hP⟩
  | cons dt rest ih =>
    intro e ha hP
    have hstep : (deathTick dt e).alive = false ∧
        (deathTick dt e).enemyType = e.enemyType ∧
        (((deathTick dt e).aiState = AIState.DYING ∧
            (deathTick dt e).deathFrame ≤ (getEnemyDeathFrames e).length - 1) ∨
         ((deathTick dt e).aiState = AIState.DEAD ∧
            (deathTick dt e).deathFrame = (getEnemyDeathFrames e).length - 1)) := by
      unfold deathTick
      rcases hP with ⟨hdy, hfr⟩ | ⟨hde, hfr⟩
      · have h1 : ¬ (e.aiState = AIState.DEAD) := by
          rw [hdy]
          decide
        rw [if_neg h1, if_pos hdy]
        by_cases hexp : e.deathFrameTimer - dt ≤ 0
        · rw [if_pos hexp]
          by_cases hlast : e.deathFrame < (getEnemyDeathFrames e).length - 1
          · rw [if_pos hlast]
            refine ⟨ha, rfl, Or.inl ⟨hdy, ?_⟩⟩
            show e.deathFrame + 1 ≤ (getEnemyDeathFrames e).length - 1
            omega
          · rw [if_neg hlast]
            refine ⟨ha, rfl, Or.inr ⟨rfl, ?_⟩⟩
            show e.deathFrame = (getEnemyDeathFrames e).length - 1
            omega
        · rw [if_neg hexp]
          exact ⟨ha, rfl, Or.inl ⟨hdy, hfr⟩⟩
      · rw [if_pos hde]
        exact ⟨ha, rfl, Or.inr ⟨hde, hfr⟩⟩
    have := ih (deathTick dt e) hstep.1 (by
      rw [getEnemyDeathFrames_congr (deathTick dt e) e hstep.2.1]
      exact hstep.2.2)
    refine ⟨this.1, this.2.1.trans hstep.2.1, ?_⟩
    rw [getEnemyDeathFrames_congr (deathTick dt e) e hstep.2.1] at this
    exact this.2.2

/-- The shoot scan only ever selects a living enemy. -/
theorem shootScan_alive (distSq : Enemy → ℚ) (aimOk : Enemy → Bool)
    (enemies : List Enemy) (r : Enemy)
    (h : shootScan distSq aimOk enemies = some r) : r.alive = true := by
  unfold shootScan at h
  have hfold := foldl_preserve
    (fun acc : Option Enemy × Option ℚ =>
      ∀ r', acc.1 = some r' → r'.alive = true)
    (shootScanStep distSq aimOk) enemies
    (fun acc e _ hacc => by
      unfold shootScanStep
      by_cases he : e.alive
      · simp only [he, Bool.not_true, Bool.false_eq_true, if_false]
        by_cases hskip : (decide (distSq e > 625) ||
            (match acc.2 with
             | some b => decide (distSq e ≥ b)
             | none => false)) = true
        · rw [if_pos hskip]
          exact hacc
        · rw [if_neg hskip]
          by_cases haim : aimOk e = true
          · rw [if_pos haim]
            intro r' hr'
            injection hr' with hr'
            subst hr'
            exact he
          · rw [if_neg haim]
            exact hacc
      · have he' : e.alive = false := by simpa using he
        simp only [he', Bool.not_false, if_true, reduceIte]
        exact hacc)
    (none, none) (fun r' hr' => by cases hr')
  exact hfold r h

/-- C8: the death sequence — `killEnemy` puts the enemy into DYING at
frame 0 (held for the configured 0.12 s), marks it not alive, awards the
type score once and drops an ammo pickup exactly for non-dog types; the
death animation has 5 frames for guard-sprite (non-dog) types and 4 for
dogs; each DYING tick merely counts the timer down until the configured
hold expires, then advances one frame (re-arming the hold) or, from the
last frame, enters DEAD; DEAD is absorbing; every post-kill tick sequence
leaves the enemy dead, either DYING within the frame range or DEAD exactly
at the last frame; and the shoot scan never selects a dead enemy, so
repeated damage after death can produce no further state change, score,
or pickups. -/
theorem enemy_death_sequence (e : Enemy) (dt : ℚ) (dts : List ℚ)
    (distSq : Enemy → ℚ) (aimOk : Enemy → Bool) (enemies : List Enemy) :
    ((killEnemy e).1.aiState = AIState.DYING ∧
     (killEnemy e).1.alive = false ∧
     (killEnemy e).1.deathFrame = 0 ∧
     (killEnemy e).1.deathFrameTimer = 0.12 ∧
     (killEnemy e).2.1 = e.typeDef.score ∧
     ((killEnemy e).2.2 = true ↔ e.enemyType ≠ EKind.dog)) ∧
    ((∀ e' : Enemy, e'.enemyType = EKind.dog →
        (getEnemyDeathFrames e').length = 4) ∧
     (e.enemyType ≠ EKind.dog → (getEnemyDeathFrames e).length = 5)) ∧
    (e.aiState = AIState.DYING →
      deathTick dt e =
        (if e.deathFrameTimer - dt ≤ 0 then
           (if e.deathFrame < (getEnemyDeathFrames e).length - 1 then
              { e with deathFrame := e.deathFrame + 1, deathFrameTimer := 0.12 }
            else { e with
                   aiState := AIState.DEAD,
                   deathFrameTimer := e.deathFrameTimer - dt })
         else { e with deathFrameTimer := e.deathFrameTimer - dt })) ∧
    (∀ e' : Enemy, e'.aiState = AIState.DEAD → deathTick dt e' = e') ∧
    ((deathRun dts (killEnemy e).1).alive = false ∧
     (((deathRun dts (killEnemy e).1).aiState = AIState.DYING ∧
       (deathRun dts (killEnemy e).1).deathFrame ≤
         (getEnemyDeathFrames e).length - 1) ∨
      ((deathRun dts (killEnemy e).1).aiState = AIState.DEAD ∧
       (deathRun dts (killEnemy e).1).deathFrame =
         (getEnemyDeathFrames e).length - 1))) ∧
    (∀ r, shootScan distSq aimOk enemies = some r → r.alive = true) := by
  refine ⟨⟨rfl, rfl, rfl, rfl, rfl, ?_⟩, ⟨?_, ?_⟩, ?_, ?_, ?_, ?_⟩
  · exact decide_eq_true_iff
  · intro e' h
    unfold getEnemyDeathFrames
    rw [if_pos h]
    rfl
  · intro h
    unfold getEnemyDeathFrames
    rw [if_neg h]
    rfl
  · intro h
    unfold deathTick
    have h1 : ¬ (e.aiState = AIState.DEAD) := by
      rw [h]
      decide
    rw [if_neg h1, if_pos h]
  · intro e' h
    unfold deathTick
    rw [if_pos h]
  · have := deathRun_inv dts (killEnemy e).1 rfl
      (Or.inl ⟨rfl, Nat.zero_le _⟩)
    have hcong : getEnemyDeathFrames (killEnemy e).1 = getEnemyDeathFrames e :=
      getEnemyDeathFrames_congr _ _ rfl
    rw [hcong] at this
    exact ⟨this.1, this.2.2⟩
  · exact shootScan_alive distSq aimOk enemies

/-- Witness for C8 at concrete enemies: the dying guard ticks as described
for `dt = 1`; the corpse is absorbing; the dog has 4 frames and the guard
5; the shoot scan over a one-guard list selects the living guard. -/
theorem enemy_death_sequence_witness :
    (dyingGuard.aiState = AIState.DYING ∧
     deadGuard.aiState = AIState.DEAD ∧
     dogEnemy.enemyType = EKind.dog ∧
     idleGuard.enemyType ≠ EKind.dog ∧
     shootScan (fun _ => (0 : ℚ)) (fun _ => true) [idleGuard]
       = some idleGuard) ∧
    ((killEnemy dyingGuard).1.aiState = AIState.DYING ∧
     (getEnemyDeathFrames dogEnemy).length = 4 ∧
     (getEnemyDeathFrames dyingGuard).length = 5 ∧
     deathTick 1 dyingGuard =
       (if dyingGuard.deathFrameTimer - 1 ≤ 0 then
          (if dyingGuard.deathFrame < (getEnemyDeathFrames dyingGuard).length - 1
           then { dyingGuard with
                  deathFrame := dyingGuard.deathFrame + 1,
                  deathFrameTimer := 0.12 }
           else { dyingGuard with
                  aiState := AIState.DEAD,
                  deathFrameTimer := dyingGuard.deathFrameTimer - 1 })
        else { dyingGuard with
               deathFrameTimer := dyingGuard.deathFrameTimer - 1 }) ∧
     deathTick 1 deadGuard = deadGuard ∧
     (deathRun [1, 1, 1, 1, 1] (killEnemy dyingGuard).1).alive = false ∧
     idleGuard.alive = true) := by
  have hdog : dogEnemy.enemyType = EKind.dog := rfl
  have hguard : idleGuard.enemyType ≠ EKind.dog := by decide
  have hguard' : dyingGuard.enemyType ≠ EKind.dog := by decide
  have hscan : shootScan (fun _ => (0 : ℚ)) (fun _ => true) [idleGuard]
      = some idleGuard := by
    unfold shootScan shootScanStep
    norm_num [idleGuard]
  have main := enemy_death_sequence dyingGuard 1 [1, 1, 1, 1, 1]
    (fun _ => (0 : ℚ)) (fun _ => true) [idleGuard]
  exact ⟨⟨rfl, rfl, hdog, hguard, hscan⟩,
    main.1.1, main.2.1.1 dogEnemy hdog, main.2.1.2 hguard',
    main.2.2.1 rfl, main.2.2.2.1 deadGuard rfl,
    main.2.2.2.2.1.1, main.2.2.2.2.2 idleGuard hscan⟩

theorem forall₂_same_of {α : Type} (r : α → α → Prop) (h : ∀ a, r a a) :
    ∀ l : List α, List.Forall₂ r l l := by
  intro l
  induction l with
  | nil => exact List.Forall₂.nil
  | cons a t ih => exact List.Forall₂.cons (h a) ih

/-- C9: invoking `tryOpenDoor` against a locked door without the matching
key leaves door state untouched: (a) in every run, every gold-locked door
(no gold key) and silver-locked door (no silver key) comes back with its
entire state unchanged (the returned list is the input list pointwise,
locked doors identically); (b) when the first door in range that is not
already open or opening is gold-locked and the gold key is missing, the
run returns the whole door list unchanged together with exactly the
notification 'You need a gold key!'. -/
theorem tryOpenDoor_locked_unchanged (keys : KeyState) (cx cz : ℚ)
    (doors pre post : List Door) (d : Door) :
    List.Forall₂ (fun d0 d1 =>
        ((d0.doorType = DoorType.gold ∧ keys.gold = false) ∨
         (d0.doorType = DoorType.silver ∧ keys.silver = false)) → d1 = d0)
      doors (tryOpenDoor keys cx cz doors).1 ∧
    (doors = pre ++ d :: post →
     (∀ p ∈ pre, ¬ (doorInRange cx cz p = true ∧ doorSkip p = false)) →
     doorInRange cx cz d = true → doorSkip d = false →
     d.doorType = DoorType.gold → keys.gold = false →
     tryOpenDoor keys cx cz doors = (doors, some goldMsg)) := by
  constructor
  · show List.Forall₂ _ doors (tryOpenDoorLoop keys cx cz doors).1
    induction doors with
    | nil => exact List.Forall₂.nil
    | cons d0 rest ih =>
      unfold tryOpenDoorLoop
      by_cases hr : doorInRange cx cz d0 = true
      · rw [if_pos hr]
        by_cases hs : doorSkip d0 = true
        · rw [if_pos hs]
          exact List.Forall₂.cons (fun _ => rfl) ih
        · rw [if_neg hs]
          by_cases hg : d0.doorType = DoorType.gold ∧ keys.gold = false
          · rw [if_pos hg]
            exact List.Forall₂.cons (fun _ => rfl)
              (forall₂_same_of _ (fun _ _ => rfl) rest)
          · rw [if_neg hg]
            by_cases hsv : d0.doorType = DoorType.silver ∧ keys.silver = false
            · rw [if_pos hsv]
              exact List.Forall₂.cons (fun _ => rfl)
                (forall₂_same_of _ (fun _ _ => rfl) rest)
            · rw [if_neg hsv]
              refine List.Forall₂.cons ?_ ih
              intro hlock
              rcases hlock with h | h
              · exact absurd h hg
              · exact absurd h hsv
      · rw [if_neg hr]
        exact List.Forall₂.cons (fun _ => rfl) ih
  · intro hsplit hpre hr hs hg hk
    subst hsplit
    show tryOpenDoorLoop keys cx cz (pre ++ d :: post)
      = (pre ++ d :: post, some goldMsg)
    induction pre with
    | nil =>
      simp only [List.nil_append]
      unfold tryOpenDoorLoop
      rw [if_pos hr, if_neg (by simp [hs]), if_pos ⟨hg, hk⟩]
    | cons p pre' ih =>
      have hp := hpre p (List.mem_cons_self _ _)
      have ih' := ih (fun q hq => hpre q (List.mem_cons_of_mem _ hq))
      simp only [List.cons_append]
      unfold tryOpenDoorLoop
      by_cases hpr : doorInRange cx cz p = true
      · rw [if_pos hpr]
        have hps : doorSkip p = true := by
          by_cases h : doorSkip p = true
          · exact h
          · exact absurd ⟨hpr, by simpa using h⟩ hp
        rw [if_pos hps]
        simp only [ih']
      · rw [if_neg hpr]
        simp only [ih']

/-- Witness for C9: with no keys and the probe point at the door's cell
centre (3,3), `tryOpenDoor` on the one-door list returns the door
untouched plus the gold-key notification. -/
theorem tryOpenDoor_locked_unchanged_witness :
    (([lockedGoldDoor] : List Door) = [] ++ lockedGoldDoor :: [] ∧
     (∀ p ∈ ([] : List Door),
        ¬ (doorInRange 3 3 p = true ∧ doorSkip p = false)) ∧
     doorInRange 3 3 lockedGoldDoor = true ∧
     doorSkip lockedGoldDoor = false ∧
     lockedGoldDoor.doorType = DoorType.gold ∧
     (KeyState.mk false false).gold = false) ∧
    (List.Forall₂ (fun d0 d1 =>
        ((d0.doorType = DoorType.gold ∧ (KeyState.mk false false).gold = false) ∨
         (d0.doorType = DoorType.silver ∧
          (KeyState.mk false false).silver = false)) → d1 = d0)
      [lockedGoldDoor]
      (tryOpenDoor (KeyState.mk false false) 3 3 [lockedGoldDoor]).1 ∧
     tryOpenDoor (KeyState.mk false false) 3 3 [lockedGoldDoor]
       = ([lockedGoldDoor], some goldMsg)) := by
  have hr : doorInRange 3 3 lockedGoldDoor = true := by
    unfold doorInRange lockedGoldDoor
    norm_num [CELL]
  have main := tryOpenDoor_locked_unchanged (KeyState.mk false false) 3 3
    [lockedGoldDoor] [] [] lockedGoldDoor
  exact ⟨⟨rfl, fun p hp => absurd hp (List.not_mem_nil p), hr, rfl, rfl, rfl⟩,
    main.1, main.2 rfl (fun p hp => absurd hp (List.not_mem_nil p)) hr rfl rfl rfl⟩

/-- C10: the ranged-attack numeric contract — the hit chance is the base
256 (160 when the player is running) minus the effective tile distance
times 16 (facing the shooter within 60°) or 8, clamped to [8, 255], and a
shot misses exactly when the hit roll reaches it; on a hit, the damage is
the pseudo-random byte right-shifted by 2 under 2 effective tiles, 3 under
4, 4 beyond, scaled by the stat `max(0.4, (dmg0 + dmg1)/24)` derived from
the type's average damage, rounded, and clamped to [1, 3·dmg1]. -/
theorem enemyAttemptHitPlayer_contract (e : Enemy) (dist : ℚ)
    (running facing60 : Bool) (hitRoll dmgRoll : Nat)
    (hd1 : 1 ≤ e.typeDef.dmg1) :
    (enemyHitChance e dist running facing60 =
       max 8 (min 255 ((if running then 160 else 256) -
         effectiveTileDist e dist * (if facing60 then 16 else 8))) ∧
     8 ≤ enemyHitChance e dist running facing60 ∧
     enemyHitChance e dist running facing60 ≤ 255) ∧
    (enemyAttemptHitPlayer e dist running facing60 hitRoll dmgRoll = none ↔
       (hitRoll : ℚ) ≥ enemyHitChance e dist running facing60) ∧
    (enemyDamageShift e dist =
       (if effectiveTileDist e dist < 2 then 2
        else if effectiveTileDist e dist < 4 then 3 else 4)) ∧
    (∀ dmg, enemyAttemptHitPlayer e dist running facing60 hitRoll dmgRoll
        = some dmg →
       dmg = min (e.typeDef.dmg1 * 3)
         (max 1 ((round (((dmgRoll >>> enemyDamageShift e dist : Nat) : ℚ) *
           max 0.4 ((e.typeDef.dmg0 + e.typeDef.dmg1) / 24)) : ℤ) : ℚ)) ∧
       1 ≤ dmg ∧ dmg ≤ e.typeDef.dmg1 * 3) := by
  refine ⟨⟨rfl, le_max_left _ _, ?_⟩, ?_, rfl, ?_⟩
  · exact max_le (by norm_num) (min_le_left _ _)
  · unfold enemyAttemptHitPlayer
    by_cases h : (hitRoll : ℚ) ≥ enemyHitChance e dist running facing60
    · simp [h]
    · simp [h]
  · intro dmg hdmg
    unfold enemyAttemptHitPlayer at hdmg
    by_cases h : (hitRoll : ℚ) ≥ enemyHitChance e dist running facing60
    · rw [if_pos h] at hdmg
      cases hdmg
    · rw [if_neg h] at hdmg
      injection hdmg with hdmg
      subst hdmg
      refine ⟨rfl, ?_, min_le_left _ _⟩
      apply le_min
      · linarith
      · exact le_max_left _ _

/-- Witness for C10: a guard (dmg 5–10) firing from 4 world units (2
effective tiles) at a stationary player facing it, with hit roll 0 and
damage roll 255: the hit chance is 224, the shot hits, and the damage is
clamped into [1, 30]. -/
theorem enemyAttemptHitPlayer_contract_witness :
    ((1 : ℚ) ≤ idleGuard.typeDef.dmg1 ∧
     enemyAttemptHitPlayer idleGuard 4 false true 0 255
       = some (enemyDamageRoll idleGuard 4 255)) ∧
    (8 ≤ enemyHitChance idleGuard 4 false true ∧
     enemyHitChance idleGuard 4 false true ≤ 255 ∧
     enemyHitChance idleGuard 4 false true = 224 ∧
     1 ≤ enemyDamageRoll idleGuard 4 255 ∧
     enemyDamageRoll idleGuard 4 255 ≤ idleGuard.typeDef.dmg1 * 3) := by
  have hd1 : (1 : ℚ) ≤ idleGuard.typeDef.dmg1 := by
    norm_num [idleGuard, guardType]
  have hss : ¬ (idleGuard.enemyType = EKind.ss ∨
      idleGuard.enemyType = EKind.boss) := by
    simp [idleGuard]
  have heff : effectiveTileDist idleGuard 4 = 2 := by
    unfold effectiveTileDist
    rw [if_neg hss]
    norm_num [CELL]
  have hhc : enemyHitChance idleGuard 4 false true = 224 := by
    unfold enemyHitChance
    rw [heff]
    norm_num
  have hhit : enemyAttemptHitPlayer idleGuard 4 false true 0 255
      = some (enemyDamageRoll idleGuard 4 255) := by
    unfold enemyAttemptHitPlayer
    rw [if_neg (by rw [hhc]; norm_num)]
  have main := enemyAttemptHitPlayer_contract idleGuard 4 false true 0 255 hd1
  have hdmg := main.2.2.2 (enemyDamageRoll idleGuard 4 255) hhit
  exact ⟨⟨hd1, hhit⟩, main.1.2.1, main.1.2.2, hhc, hdmg.2.1, hdmg.2.2⟩

end Wolf3D
